import Mathlib

/-!
Verification development for the GnuCash report generator
(gnucash_report_generator.py).  The definitions below are a shallow
embedding of the report-definition engine: Python strings are `List Char`,
`decimal.Decimal` values are `ℚ` (Decimal arithmetic on the magnitudes
appearing in reports is exact; the 28-significant-digit context limit is
not modelled), Python `None`/absence is `Option`, and raising an exception
is `Except.error`.  Each definition carries the name of the Python function
it embeds.
-/

namespace GnucashReport

/-! ## Basic string utilities (Python str helpers used by the source) -/

/-- Characters stripped by Python `str.strip()` (the whitespace actually
occurring in report files). -/
def isSpaceChar (c : Char) : Bool :=
  c = ' ' || c = '\t' || c = '\n' || c = '\r' || c = '\x0b' || c = '\x0c'

/-- Python `str.strip()`. -/
def trimChars (s : List Char) : List Char :=
  ((s.dropWhile isSpaceChar).reverse.dropWhile isSpaceChar).reverse

/-- Python `str.split(sep)` for a one-character separator and no maxsplit:
`"".split(c) = [""]`, and every separator occurrence opens a new field. -/
def splitOnChar (c : Char) (s : List Char) : List (List Char) :=
  s.foldr
    (fun a r =>
      match r with
      | [] => [[a]]
      | g :: gs => if a = c then [] :: g :: gs else (a :: g) :: gs)
    [[]]

/-- Digit string to number, `int("0…")` style (leading zeros allowed). -/
def digitsToNat (ds : List Char) : ℕ :=
  ds.foldl (fun acc d => acc * 10 + (d.toNat - 48)) 0

/-- Unsigned part of a Python `Decimal` literal: digits, optionally a dot
and more digits, with at least one digit present (`"1."`, `".5"`, `"7"`). -/
def parseUnsignedDec (t : List Char) : Option ℚ :=
  let intPart := t.takeWhile Char.isDigit
  match t.dropWhile Char.isDigit with
  | [] => if intPart = [] then none else some (digitsToNat intPart : ℚ)
  | '.' :: fr =>
    if fr.all Char.isDigit && !(intPart = [] && fr = []) then
      some ((digitsToNat intPart : ℚ) + (digitsToNat fr : ℚ) / ((10 : ℚ) ^ fr.length))
    else none
  | _ => none

/-- The Python `Decimal(str)` constructor restricted to the plain numeric
literals the report language uses: optional surrounding whitespace,
optional sign, digits with an optional fractional part.  Exponent forms and
the special values (`NaN`, `Infinity`) never occur in report definitions
and are not modelled.  `none` models the constructor raising
`InvalidOperation`. -/
def decimalOfChars (s : List Char) : Option ℚ :=
  match trimChars s with
  | '+' :: t => parseUnsignedDec t
  | '-' :: t => (parseUnsignedDec t).map (fun q => -q)
  | t => parseUnsignedDec t

/-! ## Rounding (`Decimal.quantize(Decimal('0.01'))`)

Python's default decimal context rounds with `ROUND_HALF_EVEN`. -/

/-- Round a rational to the nearest integer, ties to the even integer:
the rounding mode of `Decimal.quantize` under the default context. -/
def roundHalfEvenInt (q : ℚ) : ℤ :=
  let f := ⌊q⌋
  let r := q - (f : ℚ)
  if r < 1 / 2 then f
  else if 1 / 2 < r then f + 1
  else if f % 2 = 0 then f else f + 1

/-- `value.quantize(Decimal('0.01'))`: round to 2 decimal places,
ties to even (the source's rounding of every operation result). -/
def quantize2 (q : ℚ) : ℚ :=
  (roundHalfEvenInt (q * 100) : ℚ) / 100

/-- Round a rational to the nearest integer with ties away from zero.
This follows the claim's words ("standard financial rounding, ties away
from zero"); it is not what the source does. -/
def roundHalfAwayInt (q : ℚ) : ℤ :=
  if 0 ≤ q then ⌊q + 1 / 2⌋ else -⌊-q + 1 / 2⌋

/-- Round to the nearest cent with ties away from zero, following the
claim's words (for comparison with `quantize2`). -/
def roundCentsAway (q : ℚ) : ℚ :=
  (roundHalfAwayInt (q * 100) : ℚ) / 100

/-! ## `apply_operation` (utilities module, lines 312-350) -/

/-- The per-value arithmetic of `apply_operation` before rounding:
`*`, `/` (zero operand yields zero instead of failing), `+`, `-`,
and `%` (which multiplies, exactly like `*`); any other operator
leaves the value unchanged. -/
def opRaw (op : Char) (operand v : ℚ) : ℚ :=
  if op = '*' then v * operand
  else if op = '/' then (if operand = 0 then 0 else v / operand)
  else if op = '+' then v + operand
  else if op = '-' then v - operand
  else if op = '%' then v * operand
  else v

/-- `apply_operation(values, (operator, operand))`: apply the arithmetic
to every value and round each result to 2 decimal places. -/
def applyOperation (values : List ℚ) (operation : Char × ℚ) : List ℚ :=
  values.map (fun v => quantize2 (opRaw operation.1 operation.2 v))

/-! ## `parse_gnucash_value` (utilities module, lines 371-392) -/

/-- `parse_gnucash_value(value_str)`: split on `/`; anything that does not
split into exactly two fields yields zero; two fields are converted with
`Decimal(...)` (error = `InvalidOperation` raised), divided (a zero
denominator raises `DivisionByZero`) and quantized to 2 decimal places. -/
def parseGnucashValue (s : List Char) : Except Unit ℚ :=
  match splitOnChar '/' s with
  | [a, b] =>
    match decimalOfChars a, decimalOfChars b with
    | some n, some d => if d = 0 then .error () else .ok (quantize2 (n / d))
    | _, _ => .error ()
  | _ => .ok 0

/-- Equality of `Except` results is decidable when both components are. -/
instance {ε α : Type} [DecidableEq ε] [DecidableEq α] : DecidableEq (Except ε α) := fun x y =>
  match x, y with
  | .ok a, .ok b =>
    match decEq a b with
    | isTrue h => isTrue (by rw [h])
    | isFalse h => isFalse (fun hh => h (Except.ok.inj hh))
  | .error a, .error b =>
    match decEq a b with
    | isTrue h => isTrue (by rw [h])
    | isFalse h => isFalse (fun hh => h (Except.error.inj hh))
  | .ok _, .error _ => isFalse (fun hh => Except.noConfusion hh)
  | .error _, .ok _ => isFalse (fun hh => Except.noConfusion hh)

/-! ## Dates and period generation (`parse_date`, `get_period_ranges`) -/

/-- A calendar date as the source manipulates it (`datetime.date`). -/
structure Date where
  y : ℕ
  m : ℕ
  d : ℕ
deriving DecidableEq

/-- Python `calendar.isleap`. -/
def isLeapYear (y : ℕ) : Bool :=
  y % 4 = 0 && (y % 100 ≠ 0 || y % 400 = 0)

/-- `calendar.monthrange(y, m)[1]`: the number of days in a month. -/
def daysInMonth (y m : ℕ) : ℕ :=
  if m = 2 then (if isLeapYear y then 29 else 28)
  else if m = 4 ∨ m = 6 ∨ m = 9 ∨ m = 11 then 30
  else 31

/-- Date comparison (`datetime.date` ordering). -/
def dateLe (a b : Date) : Bool :=
  if a.y < b.y then true
  else if b.y < a.y then false
  else if a.m < b.m then true
  else if b.m < a.m then false
  else decide (a.d ≤ b.d)

/-- Python `max` on dates. -/
def maxDate (a b : Date) : Date := if dateLe a b then b else a

/-- Python `min` on dates. -/
def minDate (a b : Date) : Date := if dateLe a b then a else b

/-- `date.replace(...)` validates its fields and raises `ValueError` for an
impossible date (e.g. February 30); `none` models that exception. -/
def mkDate? (y m d : ℕ) : Option Date :=
  if 1 ≤ m ∧ m ≤ 12 ∧ 1 ≤ d ∧ d ≤ daysInMonth y m then some ⟨y, m, d⟩ else none

/-- The month advance at the bottom of `get_period_ranges`'s monthly loop:
`current_date.replace(year+1, month=1)` or `replace(month=month+1)`.
Both keep the day-of-month, so the result can be an invalid date. -/
def monthStep (cur : Date) : Option Date :=
  if cur.m = 12 then mkDate? (cur.y + 1) 1 cur.d else mkDate? cur.y (cur.m + 1) cur.d

/-- The monthly loop of `get_period_ranges` (lines 217-237).  The fuel
argument only bounds the iteration count; the Python loop terminates
whenever no `ValueError` occurs, and every caller below supplies enough
fuel for all months between the two dates. -/
def monthlyLoop : ℕ → Date → Date → Date → List (Date × Date) → Option (List (Date × Date))
  | 0, _, _, _, _ => none
  | fuel + 1, cur, start, stop, acc =>
    if dateLe cur stop then
      let ps := maxDate ⟨cur.y, cur.m, 1⟩ start
      let pe := minDate ⟨cur.y, cur.m, daysInMonth cur.y cur.m⟩ stop
      match monthStep cur with
      | some nxt => monthlyLoop fuel nxt start stop (acc ++ [(ps, pe)])
      | none => none
    else some acc

/-- The quarterly loop of `get_period_ranges` (lines 239-265). -/
def quarterlyLoop : ℕ → Date → Date → Date → List (Date × Date) → Option (List (Date × Date))
  | 0, _, _, _, _ => none
  | fuel + 1, cur, start, stop, acc =>
    if dateLe cur stop then
      let q := (cur.m - 1) / 3 + 1
      let lm := q * 3
      let ps := maxDate ⟨cur.y, (q - 1) * 3 + 1, 1⟩ start
      let pe := minDate ⟨cur.y, lm, daysInMonth cur.y lm⟩ stop
      let nxt? := if q = 4 then some (⟨cur.y + 1, 1, cur.d⟩ : Date) else mkDate? cur.y (lm + 1) cur.d
      match nxt? with
      | some nxt => quarterlyLoop fuel nxt start stop (acc ++ [(ps, pe)])
      | none => none
    else some acc

/-- Enough fuel for every month between the two dates. -/
def periodFuel (start stop : Date) : ℕ := (stop.y - start.y) * 12 + 26

/-- `get_period_ranges(start_date, end_date, period_type)`: `none` models
the `ValueError` raised when the day-of-month carried by the loop does not
exist in the next month; an unknown period type returns the empty list
(the loop body never runs). -/
def getPeriodRanges (start stop : Date) (periodType : List Char) : Option (List (Date × Date)) :=
  if periodType = ['m'] then monthlyLoop (periodFuel start stop) start start stop []
  else if periodType = ['q'] then quarterlyLoop (periodFuel start stop) start start stop []
  else some []

/-! ## `parse_operation` (markup parser, lines 1004-1037) and the
operator scan of the `ACCOUNT:` branch (lines 1192-1204) -/

/-- The operator candidates in the order the source iterates them:
`for op in ['*', '/', '+', '-', '%']`. -/
def opChars : List Char := ['*', '/', '+', '-', '%']

/-- `parse_operation(op_str)`: strip, match `^([*/%+-])\s*(.+)`, strip the
value, interpret a trailing `%` as division of the literal by 100.
`.ok none` is the regex not matching (Python returns `None`),
`.error ()` is `Decimal(...)` raising on a malformed literal. -/
def parseOperation (s : List Char) : Except Unit (Option (Char × ℚ)) :=
  match trimChars s with
  | [] => .ok none
  | c :: rest =>
    if opChars.contains c then
      match rest.dropWhile isSpaceChar with
      | [] => .ok none
      | r :: rs =>
        let valueStr := trimChars (r :: rs)
        match valueStr.getLast? with
        | some '%' =>
          match decimalOfChars valueStr.dropLast with
          | some v => .ok (some (c, v / 100))
          | none => .error ()
        | _ =>
          match decimalOfChars valueStr with
          | some v => .ok (some (c, v))
          | none => .error ()
    else .ok none

/-- The operator scan of the `ACCOUNT:`/`ACCOUNTS:` branch: try each
operator of `opChars` in list order, and at the first one contained
anywhere in the id-and-operation substring, split at that operator's first
occurrence (`guid_and_op.split(op, 1)`), strip the left part as the
account id and hand `op + parts[1]` to `parse_operation`. -/
def parseGuidAndOp (s : List Char) : Except Unit (List Char × Option (Char × ℚ)) :=
  match opChars.find? (fun o => s.contains o) with
  | none => .ok (s, none)
  | some o =>
    match parseOperation (o :: (s.dropWhile (fun c => c ≠ o)).tail) with
    | .ok oper => .ok (trimChars (s.takeWhile (fun c => c ≠ o)), oper)
    | .error e => .error e

/-- The claim's selection rule, for comparison: the first operator
character in string position order (scanning the substring left to
right). -/
def firstOpByPosition (s : List Char) : Option Char :=
  s.find? (fun c => opChars.contains c)

/-! ## Line preprocessing (`strip_comments`, `process_escape_sequences`) -/

/-- The scanner body of `strip_comments` (lines 956-1001): `\#` and `\\`
pass through untouched, a quote toggles the in-quotes flag, an unquoted
unescaped `#` ends the line. -/
def stripCommentsAux : Bool → List Char → List Char
  | _, [] => []
  | _, ['\\'] => ['\\']
  | inQ, '\\' :: n :: rest2 =>
    if n = '#' ∨ n = '\\' then '\\' :: n :: stripCommentsAux inQ rest2
    else '\\' :: stripCommentsAux inQ (n :: rest2)
  | inQ, c :: rest =>
    if c = '"' then c :: stripCommentsAux (!inQ) rest
    else if c = '#' ∧ inQ = false then []
    else c :: stripCommentsAux inQ rest

/-- `strip_comments(line)`: scan, then strip whitespace. -/
def stripComments (line : List Char) : List Char :=
  trimChars (stripCommentsAux false line)

/-- `process_escape_sequences(text)` (lines 920-953): `\#` becomes `#`,
`\\` becomes `\`, any other backslash is kept. -/
def processEscapes : List Char → List Char
  | [] => []
  | ['\\'] => ['\\']
  | '\\' :: n :: rest2 =>
    if n = '#' ∨ n = '\\' then n :: processEscapes rest2
    else '\\' :: processEscapes (n :: rest2)
  | c :: rest => c :: processEscapes rest

/-- The reference-tag pattern `^\[(\d+)\]\s+(.+)` applied to a stripped
line: a leading `[n]` tag followed by at least one whitespace character
and a nonempty remainder. -/
def refSplit (s : List Char) : Option (ℕ × List Char) :=
  match s with
  | '[' :: rest =>
    let ds := rest.takeWhile Char.isDigit
    if ds = [] then none
    else
      match rest.dropWhile Char.isDigit with
      | ']' :: rest3 =>
        let rest4 := rest3.dropWhile isSpaceChar
        if rest3.takeWhile isSpaceChar = [] ∨ rest4 = [] then none
        else some (digitsToNat ds, rest4)
      | _ => none
  | _ => none

/-- Fuelled scanner for `re.finditer(r'\[(\d+)\]', formula)`: each step
consumes at least one character, so `s.length + 1` fuel always
suffices. -/
def findRefNumsF : ℕ → List Char → List ℕ
  | 0, _ => []
  | _ + 1, [] => []
  | fuel + 1, '[' :: rest =>
    let ds := rest.takeWhile Char.isDigit
    match rest.dropWhile Char.isDigit with
    | ']' :: rest2 =>
      if ds = [] then findRefNumsF fuel rest else digitsToNat ds :: findRefNumsF fuel rest2
    | _ => findRefNumsF fuel rest
  | fuel + 1, _ :: rest => findRefNumsF fuel rest

/-- `re.finditer(r'\[(\d+)\]', formula)`: all `[n]` tokens in order of
occurrence (used both by the `CALC:` validation and by
`calculate_calc_values`). -/
def findRefNums (s : List Char) : List ℕ := findRefNumsF (s.length + 1) s

/-- One attempted match of `(-?)"([^"]+)"` at the current position. -/
def tryQuotedPat (s : List Char) : Option (Bool × List Char × List Char) :=
  let (neg, s1) := match s with
    | '-' :: t => (true, t)
    | t => (false, t)
  match s1 with
  | '"' :: t =>
    let p := t.takeWhile (fun c => c ≠ '"')
    match t.dropWhile (fun c => c ≠ '"') with
    | '"' :: rest2 => if p = [] then none else some (neg, p, rest2)
    | _ => none
  | _ => none

/-- Fuelled scan for `re.finditer(r'(-?)"([^"]+)"', patterns)`: on a match
continue after it, otherwise advance one character.  Every successful
match consumes at least one character, so `s.length + 1` fuel always
suffices. -/
def regexTokensF : ℕ → List Char → List (Bool × List Char)
  | 0, _ => []
  | _ + 1, [] => []
  | fuel + 1, c :: rest =>
    match tryQuotedPat (c :: rest) with
    | some (neg, p, rest2) => (neg, p) :: regexTokensF fuel rest2
    | none => regexTokensF fuel rest

/-- The pattern tokens of a `REGEX:` line, with `true` marking an exclude
(`-"..."`) pattern. -/
def regexTokens (s : List Char) : List (Bool × List Char) :=
  regexTokensF (s.length + 1) s

/-! ## Report elements and configuration (markup parser module) -/

/-- The data of an `AccountElement` (`ACCOUNT:`/`ACCOUNTS:` row). -/
structure AccountData where
  guid : List Char
  label : Option (List Char)
  operation : Option (Char × ℚ)
  recursive : Bool
  filterGuid : Option (List Char)
  regexInclude : List (List Char)
  regexExclude : List (List Char)
deriving DecidableEq

/-- The payload of each `ReportElement` variant. -/
inductive ElemKind where
  | sec (title : List Char)
  | tit (text : List Char)
  | acct (a : AccountData)
  | placeholder (descr : List Char) (values : List ℚ)
  | sumE (descr : List Char)
  | calcE (descr : List Char) (formula : List Char)
  | blankE
deriving DecidableEq

/-- A `ReportElement`: source line number, optional `[n]` reference
(`BlankElement` never receives one), and the variant payload. -/
structure Elem where
  lineNum : ℕ
  ref : Option ℕ
  kind : ElemKind
deriving DecidableEq

/-- `ReportConfig` with its constructor defaults. -/
structure ReportConfig where
  startDate : Option Date
  endDate : Option Date
  period : List Char
  accountName : List Char
  gnucashFile : Option (List Char)
  csvFile : Option (List Char)
  invertIncome : Bool
deriving DecidableEq

/-- `ReportConfig.__init__` defaults. -/
def initConfig : ReportConfig :=
  ⟨none, none, ['m'], "name_only".toList, none, none, true⟩

/-- The distinct `ValueError`s `parse_report_definition` raises, each
carrying the offending line number. -/
inductive ParseErr where
  | duplicateReference (lineNum refNum firstLine : ℕ)
  | invalidDate (lineNum : ℕ)
  | invalidPeriod (lineNum : ℕ)
  | invalidAccountName (lineNum : ℕ)
  | invalidInvert (lineNum : ℕ)
  | orphanFilter (lineNum : ℕ)
  | orphanRegex (lineNum : ℕ)
  | badPlaceholder (lineNum : ℕ)
  | badDecimal (lineNum : ℕ)
  | badCalc (lineNum : ℕ)
  | undefinedReference (lineNum refNum : ℕ)
  | unrecognized (lineNum : ℕ)
  | placeholderCount (lineNum : ℕ)
  | rangeError
deriving DecidableEq

/-- Parser state threaded through the line loop: the config being filled
in, the elements so far, the `references` dict (reference number to the
line that bound it, in insertion order), and the index of the live
"last account" context for `FILTER:`/`REGEX:`. -/
structure PState where
  config : ReportConfig
  elements : List Elem
  references : List (ℕ × ℕ)
  lastAccount : Option ℕ
deriving DecidableEq

/-- Lookup in the `references` dict. -/
def refLookup : List (ℕ × ℕ) → ℕ → Option ℕ
  | [], _ => none
  | (m, l) :: rest, n => if m = n then some l else refLookup rest n

/-- `references[current_reference] = line_num`, guarded by the source's
truthiness test `if current_reference:` (so reference `0` is never
recorded). -/
def recordRef (refs : List (ℕ × ℕ)) (curRef : Option ℕ) (lineNum : ℕ) : List (ℕ × ℕ) :=
  match curRef with
  | some n => if n = 0 then refs else refs ++ [(n, lineNum)]
  | none => refs

/-- Append a new element, record its reference, and set the new
"last account" context. -/
def addElem (st : PState) (lineNum : ℕ) (curRef : Option ℕ) (k : ElemKind) (la : Option ℕ) :
    PState :=
  { st with
    elements := st.elements ++ [⟨lineNum, curRef, k⟩],
    references := recordRef st.references curRef lineNum,
    lastAccount := la }

/-! ## `parse_date` (lines 76-195) -/

/-- `datetime.strptime(date_str, '%Y-%m-%d').date()`: exactly four year
digits, one or two month and day digits, and the date must exist. -/
def parseIsoDate (s : List Char) : Option Date :=
  let ys := s.take 4
  if ys.length = 4 ∧ ys.all Char.isDigit then
    match s.drop 4 with
    | '-' :: rest =>
      let ms := rest.takeWhile Char.isDigit
      match rest.dropWhile Char.isDigit with
      | '-' :: ds =>
        if (ms ≠ [] ∧ ms.length ≤ 2) ∧ (ds ≠ [] ∧ ds.length ≤ 2 ∧ ds.all Char.isDigit) then
          let y := digitsToNat ys
          let m := digitsToNat ms
          let d := digitsToNat ds
          if 1 ≤ m ∧ m ≤ 12 ∧ 1 ≤ d ∧ d ≤ daysInMonth y m then some ⟨y, m, d⟩ else none
        else none
      | _ => none
    | _ => none
  else none

/-- `(today.month - 1) // 3 + 1`. -/
def currentQuarter (today : Date) : ℕ := (today.m - 1) / 3 + 1

/-- `parse_date(date_str)` with the ambient `datetime.now().date()` made
an explicit argument.  `none` models the `ValueError` raised for an
unrecognized token. -/
def parseDate (today : Date) (s0 : List Char) : Option Date :=
  let s := (trimChars s0).map Char.toUpper
  if s = "TODAY".toList then some today
  else if s = "BPY".toList then some ⟨today.y - 1, 1, 1⟩
  else if s = "BPQ".toList then
    let cq := currentQuarter today
    let pq := if cq = 1 then 4 else cq - 1
    let yy := if cq = 1 then today.y - 1 else today.y
    some ⟨yy, (pq - 1) * 3 + 1, 1⟩
  else if s = "BPM".toList then
    if today.m = 1 then some ⟨today.y - 1, 12, 1⟩ else some ⟨today.y, today.m - 1, 1⟩
  else if s = "BY".toList then some ⟨today.y, 1, 1⟩
  else if s = "BQ".toList then some ⟨today.y, (currentQuarter today - 1) * 3 + 1, 1⟩
  else if s = "BM".toList then some ⟨today.y, today.m, 1⟩
  else if s = "EPY".toList then some ⟨today.y - 1, 12, 31⟩
  else if s = "EPQ".toList then
    let cq := currentQuarter today
    let pq := if cq = 1 then 4 else cq - 1
    let yy := if cq = 1 then today.y - 1 else today.y
    some ⟨yy, pq * 3, daysInMonth yy (pq * 3)⟩
  else if s = "EPM".toList then
    let yy := if today.m = 1 then today.y - 1 else today.y
    let mm := if today.m = 1 then 12 else today.m - 1
    some ⟨yy, mm, daysInMonth yy mm⟩
  else if s = "EY".toList then some ⟨today.y, 12, 31⟩
  else if s = "EQ".toList then
    some ⟨today.y, currentQuarter today * 3, daysInMonth today.y (currentQuarter today * 3)⟩
  else if s = "EM".toList then some ⟨today.y, today.m, daysInMonth today.y today.m⟩
  else parseIsoDate s

/-! ## The line dispatcher of `parse_report_definition` (lines 1085-1315) -/

/-- The nine command keywords (plus `FILTER:`/`REGEX:`) whose presence at
the start of a line excludes it from configuration-line handling, in the
source's tuple order. -/
def commandKeys : List (List Char) :=
  ["SECTION:".toList, "TITLE:".toList, "ACCOUNT:".toList, "ACCOUNTS:".toList,
   "SUM:".toList, "CALC:".toList, "PLACEHOLDER:".toList, "BLANK:".toList,
   "FILTER:".toList, "REGEX:".toList]

/-- `[Decimal(v.strip()) for v in values_str.split(',')]`; `none` models
`Decimal` raising on any malformed entry. -/
def parseDecimalList : List (List Char) → Option (List ℚ)
  | [] => some []
  | v :: rest =>
    match decimalOfChars v, parseDecimalList rest with
    | some q, some qs => some (q :: qs)
    | _, _ => none

/-- The configuration-line branch (`KEY: value`, lines 1115-1153).
Unknown keys are silently ignored, exactly as in the source. -/
def handleConfigLine (st : PState) (lineNum : ℕ) (today : Date) (line : List Char) :
    Except ParseErr PState :=
  let key := (trimChars (line.takeWhile (fun c => c ≠ ':'))).map Char.toUpper
  let value := trimChars ((line.dropWhile (fun c => c ≠ ':')).tail)
  if key = "START_DATE".toList then
    match parseDate today value with
    | some dt => .ok { st with config := { st.config with startDate := some dt } }
    | none => .error (.invalidDate lineNum)
  else if key = "END_DATE".toList then
    match parseDate today value with
    | some dt => .ok { st with config := { st.config with endDate := some dt } }
    | none => .error (.invalidDate lineNum)
  else if key = "PERIOD".toList then
    let v := value.map Char.toLower
    if v = ['m'] ∨ v = ['q'] then .ok { st with config := { st.config with period := v } }
    else .error (.invalidPeriod lineNum)
  else if key = "ACCOUNT_NAME".toList then
    let v := value.map Char.toLower
    if v = "full_path".toList ∨ v = "name_only".toList then
      .ok { st with config := { st.config with accountName := v } }
    else .error (.invalidAccountName lineNum)
  else if key = "GNUCASH_FILE".toList then
    .ok { st with config := { st.config with gnucashFile := some value } }
  else if key = "CSV_FILE".toList then
    .ok { st with config := { st.config with csvFile := some value } }
  else if key = "INVERT_INCOME".toList then
    let v := value.map Char.toLower
    if v = "true".toList ∨ v = "yes".toList ∨ v = ['1'] then
      .ok { st with config := { st.config with invertIncome := true } }
    else if v = "false".toList ∨ v = "no".toList ∨ v = ['0'] then
      .ok { st with config := { st.config with invertIncome := false } }
    else .error (.invalidInvert lineNum)
  else .ok st

/-- The `ACCOUNT:`/`ACCOUNTS:` branch (lines 1178-1211). -/
def handleAccountLine (st : PState) (lineNum : ℕ) (curRef : Option ℕ) (line : List Char) :
    Except ParseErr PState :=
  let recursive := "ACCOUNTS:".toList.isPrefixOf line
  let content := trimChars (line.drop (if recursive then 9 else 8))
  let guidAndOp :=
    if content.contains '|' then trimChars (content.takeWhile (fun c => c ≠ '|')) else content
  let label :=
    if content.contains '|' then some (trimChars ((content.dropWhile (fun c => c ≠ '|')).tail))
    else none
  match parseGuidAndOp guidAndOp with
  | .error _ => .error (.badDecimal lineNum)
  | .ok (guid, oper) =>
    .ok (addElem st lineNum curRef (.acct ⟨guid, label, oper, recursive, none, [], []⟩)
      (some st.elements.length))

/-- The `FILTER:` branch (lines 1214-1220). -/
def handleFilterLine (st : PState) (lineNum : ℕ) (line : List Char) : Except ParseErr PState :=
  match st.lastAccount with
  | none => .error (.orphanFilter lineNum)
  | some i =>
    match st.elements.get? i with
    | some e =>
      match e.kind with
      | .acct a =>
        let e2 : Elem :=
          { e with kind := .acct { a with filterGuid := some (trimChars (line.drop 7)) } }
        .ok { st with elements := st.elements.set i e2 }
      | _ => .ok st
    | none => .ok st

/-- The `REGEX:` branch (lines 1223-1241). -/
def handleRegexLine (st : PState) (lineNum : ℕ) (line : List Char) : Except ParseErr PState :=
  match st.lastAccount with
  | none => .error (.orphanRegex lineNum)
  | some i =>
    match st.elements.get? i with
    | some e =>
      match e.kind with
      | .acct a =>
        let toks := regexTokens (trimChars (line.drop 6))
        let a2 : AccountData :=
          { a with
            regexInclude := a.regexInclude ++ (toks.filter (fun t => !t.1)).map (fun t => t.2),
            regexExclude := a.regexExclude ++ (toks.filter (fun t => t.1)).map (fun t => t.2) }
        let e2 : Elem := { e with kind := .acct a2 }
        .ok { st with elements := st.elements.set i e2 }
      | _ => .ok st
    | none => .ok st

/-- The `PLACEHOLDER:` branch (lines 1244-1264). -/
def handlePlaceholderLine (st : PState) (lineNum : ℕ) (curRef : Option ℕ) (line : List Char) :
    Except ParseErr PState :=
  let content := trimChars (line.drop 12)
  if !content.contains '|' then .error (.badPlaceholder lineNum)
  else
    let descr := trimChars (content.takeWhile (fun c => c ≠ '|'))
    match parseDecimalList (splitOnChar ',' ((content.dropWhile (fun c => c ≠ '|')).tail)) with
    | some vals => .ok (addElem st lineNum curRef (.placeholder descr vals) none)
    | none => .error (.badDecimal lineNum)

/-- The `CALC:` branch (lines 1278-1305). -/
def handleCalcLine (st : PState) (lineNum : ℕ) (curRef : Option ℕ) (line : List Char) :
    Except ParseErr PState :=
  let content := trimChars (line.drop 5)
  if !content.contains '|' then .error (.badCalc lineNum)
  else
    let descr := trimChars (content.takeWhile (fun c => c ≠ '|'))
    let formula := trimChars ((content.dropWhile (fun c => c ≠ '|')).tail)
    match (findRefNums formula).find? (fun n => (refLookup st.references n).isNone) with
    | some n => .error (.undefinedReference lineNum n)
    | none => .ok (addElem st lineNum curRef (.calcE descr formula) none)

/-- The command dispatch on a cleaned, reference-stripped line, in the
source's branch order. -/
def dispatchLine (today : Date) (st : PState) (lineNum : ℕ) (curRef : Option ℕ)
    (line : List Char) : Except ParseErr PState :=
  if line.contains ':' && !(commandKeys.any (fun k => k.isPrefixOf line)) then
    handleConfigLine st lineNum today line
  else if "SECTION:".toList.isPrefixOf line then
    .ok (addElem st lineNum curRef (.sec (trimChars (line.drop 8))) none)
  else if "TITLE:".toList.isPrefixOf line then
    .ok (addElem st lineNum curRef (.tit (trimChars (line.drop 6))) none)
  else if "ACCOUNT:".toList.isPrefixOf line || "ACCOUNTS:".toList.isPrefixOf line then
    handleAccountLine st lineNum curRef line
  else if "FILTER:".toList.isPrefixOf line then
    handleFilterLine st lineNum line
  else if "REGEX:".toList.isPrefixOf line then
    handleRegexLine st lineNum line
  else if "PLACEHOLDER:".toList.isPrefixOf line then
    handlePlaceholderLine st lineNum curRef line
  else if "SUM:".toList.isPrefixOf line then
    .ok (addElem st lineNum curRef (.sumE (trimChars (line.drop 4))) none)
  else if "CALC:".toList.isPrefixOf line then
    handleCalcLine st lineNum curRef line
  else if line.map Char.toUpper = "BLANK:".toList then
    .ok (addElem st lineNum none .blankE none)
  else .error (.unrecognized lineNum)

/-- One iteration of the line loop: strip comments, resolve escapes,
strip, skip blank lines, split a `[n]` reference tag (raising
`DuplicateReference` if the tag is already bound), then dispatch. -/
def processLine (today : Date) (st : PState) (lineNum : ℕ) (raw : List Char) :
    Except ParseErr PState :=
  let line := trimChars (processEscapes (stripComments raw))
  if line = [] then .ok st
  else
    match refSplit line with
    | some (n, restLine) =>
      match refLookup st.references n with
      | some firstLine => .error (.duplicateReference lineNum n firstLine)
      | none => dispatchLine today st lineNum (some n) restLine
    | none => dispatchLine today st lineNum none line

/-- The line loop of `parse_report_definition`, with 1-based line
numbering. -/
def parseLines (today : Date) : PState → ℕ → List (List Char) → Except ParseErr PState
  | st, _, [] => .ok st
  | st, k, l :: ls =>
    match processLine today st k l with
    | .ok st2 => parseLines today st2 (k + 1) ls
    | .error e => .error e

/-- The post-loop phase of `parse_report_definition` (lines 1317-1337):
apply the `BY`/`EY` date defaults, compute the period ranges, and reject
any `PLACEHOLDER` whose value count differs from the period count. -/
def finalize (today : Date) (st : PState) :
    Except ParseErr (ReportConfig × List Elem × List (ℕ × ℕ)) :=
  let cfg1 :=
    if st.config.startDate = none then
      { st.config with startDate := some ⟨today.y, 1, 1⟩ }
    else st.config
  let cfg :=
    if cfg1.endDate = none then { cfg1 with endDate := some ⟨today.y, 12, 31⟩ } else cfg1
  match cfg.startDate, cfg.endDate with
  | some sd, some ed =>
    match getPeriodRanges sd ed cfg.period with
    | none => .error .rangeError
    | some ranges =>
      match st.elements.find? (fun e =>
        match e.kind with
        | .placeholder _ vals => decide (vals.length ≠ ranges.length)
        | _ => false) with
      | some e => .error (.placeholderCount e.lineNum)
      | none => .ok (cfg, st.elements, st.references)
  | _, _ => .error .rangeError

/-- The empty parser state at the top of `parse_report_definition`. -/
def initState : PState := ⟨initConfig, [], [], none⟩

/-- `parse_report_definition`, on the file's lines (file I/O is outside
the model). -/
def parseReportDefinition (today : Date) (lines : List (List Char)) :
    Except ParseErr (ReportConfig × List Elem × List (ℕ × ℕ)) :=
  match parseLines today initState 1 lines with
  | .ok st => finalize today st
  | .error e => .error e

/-- How many elements of the list carry the reference tag `n`. -/
def refCount : List Elem → ℕ → ℕ
  | [], _ => 0
  | e :: rest, n => (if e.ref = some n then 1 else 0) + refCount rest n

/-! ## Accounts, cache keys, and the transaction store
(XML reader module) -/

/-- A GnuCash `Account` record (name, guid, parent guid, type tag). -/
structure Account where
  name : List Char
  guid : List Char
  parentGuid : Option (List Char)
  accountType : Option (List Char)
deriving DecidableEq

/-- Registry lookup (`elem.guid in accounts` / `accounts[guid]`); the
registry is the insertion-ordered dict of `parse_gnucash_file`. -/
def lookupAcc (accounts : List (List Char × Account)) (g : List Char) : Option Account :=
  (accounts.find? (fun ga => ga.1 = g)).map (fun ga => ga.2)

/-- `CacheKey`: the constructor turns empty regex lists into `None`
(`tuple(x) if x else None`). -/
structure CacheKey where
  accountGuid : List Char
  filterGuid : Option (List Char)
  regexInclude : Option (List (List Char))
  regexExclude : Option (List (List Char))
deriving DecidableEq

/-- `CacheKey(account_guid, filter_guid, regex_include, regex_exclude)`. -/
def mkCacheKey (guid : List Char) (filterGuid : Option (List Char))
    (inc exc : List (List Char)) : CacheKey :=
  ⟨guid, filterGuid, if inc = [] then none else some inc,
    if exc = [] then none else some exc⟩

/-- One transaction split: owning account and the split's monetary value
(`none` models a missing `split:value` element; the value itself is the
split's value string as parsed by `parse_gnucash_value`, taken at the
store boundary). -/
structure Split where
  account : List Char
  value : Option ℚ
deriving DecidableEq

/-- One transaction as the cache builders consume it: the posted date
(`none` models a missing `trn:date-posted`), the text
`f"{description} {notes}"` the regex filters search, and the splits. -/
structure Transaction where
  datePosted : Option Date
  searchText : List Char
  splits : List Split
deriving DecidableEq

/-- The period lookup shared by both cache builders: linear scan over the
ordered period list, first containing interval wins. -/
def findPeriodIdxA : List (Date × Date) → ℕ → Date → Option ℕ
  | [], _, _ => none
  | (s, e) :: rest, i, d =>
    if dateLe s d && dateLe d e then some i else findPeriodIdxA rest (i + 1) d

/-- `for idx, (start, end) in enumerate(period_ranges): if start <= d <= end`. -/
def findPeriodIdx (periodRanges : List (Date × Date)) (d : Date) : Option ℕ :=
  findPeriodIdxA periodRanges 0 d

/-- `transaction_matches_regex` (lines 659-689), with the `re.search`
engine abstracted as a Boolean predicate `rmatch pattern text` (the
regular-expression library is external to the model): excludes are
checked first and any match disqualifies, then every include must
match. -/
def txnMatchesRegex (rmatch : List Char → List Char → Bool) (text : List Char)
    (includes excludes : List (List Char)) : Bool :=
  !(excludes.any (fun p => rmatch p text)) && includes.all (fun p => rmatch p text)

/-- The per-key filter test of `build_all_filtered_caches`: the FILTER
condition (a split on the filter account, skipped when the filter guid is
falsy) and then the REGEX condition. -/
def keyPasses (rmatch : List Char → List Char → Bool) (key : CacheKey) (txn : Transaction) :
    Bool :=
  let filterOk :=
    match key.filterGuid with
    | some fg => if fg = [] then true else txn.splits.any (fun sp => sp.account = fg)
    | none => true
  let regexOk :=
    if key.regexInclude.isSome || key.regexExclude.isSome then
      txnMatchesRegex rmatch txn.searchText (key.regexInclude.getD []) (key.regexExclude.getD [])
    else true
  filterOk && regexOk

/-- Sum of the values of the transaction's splits owned by the target
account (the inner split loop of both cache builders; a missing value
element contributes nothing). -/
def txnSplitTotal (txn : Transaction) (guid : List Char) : ℚ :=
  txn.splits.foldl (fun t sp => if sp.account = guid then t + sp.value.getD 0 else t) 0

/-- Apply one transaction to one key's cache: if the transaction passes
the key's filters, add its target-account split total to the transaction's
period bucket. -/
def applyTxnToKey (rmatch : List Char → List Char → Bool) (key : CacheKey) (txn : Transaction)
    (pIdx : ℕ) (c : ℕ → ℚ) : ℕ → ℚ :=
  if keyPasses rmatch key txn then
    fun p => if p = pIdx then c p + txnSplitTotal txn key.accountGuid else c p
  else c

/-- One step of the inner `for cache_key in required_caches` loop:
update the one key's bucket map, leaving every other key's untouched. -/
def updKeyStep (rmatch : List Char → List Char → Bool) (txn : Transaction) (pIdx : ℕ)
    (cs : CacheKey → ℕ → ℚ) (key : CacheKey) : CacheKey → ℕ → ℚ :=
  fun k => if k = key then applyTxnToKey rmatch key txn pIdx (cs key) else cs k

/-- The body of the single transaction loop of `build_all_filtered_caches`
(lines 719-774): locate the period once, then test and update every
requested key during this one visit. -/
def processTxnAll (rmatch : List Char → List Char → Bool) (periodRanges : List (Date × Date))
    (keys : List CacheKey) (caches : CacheKey → ℕ → ℚ) (txn : Transaction) : CacheKey → ℕ → ℚ :=
  match txn.datePosted with
  | none => caches
  | some d =>
    match findPeriodIdx periodRanges d with
    | none => caches
    | some pIdx => keys.foldl (updKeyStep rmatch txn pIdx) caches

/-- `build_all_filtered_caches(tree, period_ranges, required_caches)`:
one pass over the transaction store, all requested keys tested against
each transaction during that single visit.  Buckets with no matching
transaction stay at the `defaultdict` zero. -/
def buildAllFilteredCaches (rmatch : List Char → List Char → Bool) (txs : List Transaction)
    (periodRanges : List (Date × Date)) (keys : List CacheKey) : CacheKey → ℕ → ℚ :=
  txs.foldl (processTxnAll rmatch periodRanges keys) (fun _ _ => 0)

/-- The same builder instrumented with a visit counter that increments
exactly once per transaction processed by the loop. -/
def buildAllCachesCounted (rmatch : List Char → List Char → Bool) (txs : List Transaction)
    (periodRanges : List (Date × Date)) (keys : List CacheKey) : (CacheKey → ℕ → ℚ) × ℕ :=
  txs.foldl (fun st txn => (processTxnAll rmatch periodRanges keys st.1 txn, st.2 + 1))
    ((fun _ _ => 0), 0)

/-- Reference implementation that builds one key's cache in its own pass
over the store (the N-passes shape the claim compares against). -/
def processTxnSingle (rmatch : List Char → List Char → Bool) (periodRanges : List (Date × Date))
    (key : CacheKey) (c : ℕ → ℚ) (txn : Transaction) : ℕ → ℚ :=
  match txn.datePosted with
  | none => c
  | some d =>
    match findPeriodIdx periodRanges d with
    | none => c
    | some pIdx => applyTxnToKey rmatch key txn pIdx c

/-- Build a single key's filtered cache with a dedicated pass. -/
def buildSingleFilteredCache (rmatch : List Char → List Char → Bool) (txs : List Transaction)
    (periodRanges : List (Date × Date)) (key : CacheKey) : ℕ → ℚ :=
  txs.foldl (processTxnSingle rmatch periodRanges key) (fun _ => 0)

/-! ## `calculate_account_values` (calculator module, lines 1389-1494) -/

/-- Fuelled embedding of the `add_children` recursion inside
`get_descendant_guids`: scan the registry in dict order, and for each
child found, append it and recurse into it before continuing the scan.
The fuel only bounds the recursion; on the acyclic registries GnuCash
produces, the fuel supplied by `getDescendantGuids` is never exhausted
(on a cyclic registry the Python original does not terminate). -/
def childGuids (all : List (List Char × Account)) :
    ℕ → List (List Char × Account) → List Char → List (List Char)
  | 0, _, _ => []
  | _ + 1, [], _ => []
  | fuel + 1, ga :: rest, p =>
    if ga.2.parentGuid = some p then
      ga.1 :: (childGuids all fuel all ga.1 ++ childGuids all fuel rest p)
    else childGuids all fuel rest p

/-- `get_descendant_guids(account_guid, accounts)`. -/
def getDescendantGuids (guid : List Char) (accounts : List (List Char × Account)) :
    List (List Char) :=
  guid :: childGuids accounts ((accounts.length + 1) * (accounts.length + 1)) accounts guid

/-- The result dictionary of `calculate_account_values`; absent keys are
`none`. -/
structure AccValues where
  raw : List ℚ
  filtered : Option (List ℚ)
  regexFiltered : Option (List ℚ)
  final : List ℚ
  valid : Bool
deriving DecidableEq

/-- Python truthiness of the optional filter-guid string (both `None` and
`''` are falsy). -/
def optStrTruthy (o : Option (List Char)) : Bool :=
  match o with
  | some g => !g.isEmpty
  | none => false

/-- `calculate_account_values(elem, period_ranges, accounts, config,
transaction_cache, filtered_caches)`.  The period ranges enter only
through `len(period_ranges)`, so the embedding takes `numPeriods`
directly; the caches are dict lookups defaulting to zero
(`cache.get(guid, {}).get(idx, Decimal('0'))`). -/
def calculateAccountValues (elem : AccountData) (accounts : List (List Char × Account))
    (invertIncome : Bool) (baseCache : List Char → ℕ → ℚ)
    (filteredCaches : CacheKey → Option (ℕ → ℚ)) (numPeriods : ℕ) : AccValues :=
  match lookupAcc accounts elem.guid with
  | none =>
    ⟨List.replicate numPeriods 0, none, none, List.replicate numPeriods 0, false⟩
  | some acct =>
    let targetGuids :=
      if elem.recursive then getDescendantGuids elem.guid accounts else [elem.guid]
    let doInvert := invertIncome && decide (acct.accountType = some ("INCOME".toList))
    let raw0 :=
      (List.range numPeriods).map (fun p => targetGuids.foldl (fun t g => t + baseCache g p) 0)
    let raw := if doInvert then raw0.map (fun v => -v) else raw0
    let wantFilter :=
      optStrTruthy elem.filterGuid || !elem.regexInclude.isEmpty || !elem.regexExclude.isEmpty
    let step :=
      if wantFilter then
        match filteredCaches (mkCacheKey elem.guid elem.filterGuid elem.regexInclude
          elem.regexExclude) with
        | some c =>
          let fv := (List.range numPeriods).map (fun p => if doInvert then -(c p) else c p)
          if !elem.regexInclude.isEmpty || !elem.regexExclude.isEmpty then
            (none, some fv, fv)
          else if optStrTruthy elem.filterGuid then (some fv, none, fv)
          else (none, none, fv)
        | none => ((none : Option (List ℚ)), (none : Option (List ℚ)), raw)
      else (none, none, raw)
    let finalVals :=
      match elem.operation with
      | some o => applyOperation step.2.2 o
      | none => step.2.2
    ⟨raw, step.1, step.2.1, finalVals, true⟩

/-! ## `calculate_sum_values` (calculator module, lines 1497-1544) -/

/-- Is this element a scan boundary (`Title`, `Sum`, `Calc`)? -/
def isBoundaryElem (e : Elem) : Bool :=
  match e.kind with
  | .tit _ => true
  | .sumE _ => true
  | .calcE _ _ => true
  | _ => false

/-- How an element contributes to a SUM at period `p`: an Account
contributes its stored `final` series (nothing when it has no stored
values), a Placeholder contributes its literal values, everything else
contributes nothing.  The parser guarantees every contributing series has
one value per period, so the out-of-range default never fires on parsed
reports. -/
def contribSeries (e : Elem) (storedAt : Option (List ℚ)) (p : ℕ) : ℚ :=
  match e.kind with
  | .acct _ =>
    match storedAt with
    | some vs => vs.getD p 0
    | none => 0
  | .placeholder _ vals => vals.getD p 0
  | _ => 0

/-- The backward scan of `calculate_sum_values` at one period, starting
just below index `i` and walking down: stop (exclusive) at the first
Title/Sum/Calc, skip Section/Blank, accumulate Accounts (stored `final`
series, indexed by element position) and Placeholders. -/
def sumSeries (elements : List Elem) (stored : ℕ → Option (List ℚ)) : ℕ → ℕ → ℚ
  | 0, _ => 0
  | i + 1, p =>
    match elements.get? i with
    | none => 0
    | some e =>
      if isBoundaryElem e then 0
      else contribSeries e (stored i) p + sumSeries elements stored i p

/-- `calculate_sum_values(elem, elements, stored_values, num_periods)`,
with the SUM element's position given as `idx` (`elements.index(elem)`)
and the stored `final` series of earlier Account elements given by
position. -/
def calculateSumValues (elements : List Elem) (stored : ℕ → Option (List ℚ))
    (idx numPeriods : ℕ) : List ℚ :=
  (List.range numPeriods).map (fun p => sumSeries elements stored idx p)

/-- The claim's description of the SUM scope: of the elements before the
SUM, taken in reverse document order, the maximal prefix free of
Title/Sum/Calc boundaries (paired with their positions). -/
def sumScope (elements : List Elem) (idx : ℕ) : List (ℕ × Elem) :=
  ((elements.enum.take idx).reverse).takeWhile (fun pe => !isBoundaryElem pe.2)

/-- The claim's value for a SUM at one period: the sum of the scope
elements' contributions. -/
def scopeSum (elements : List Elem) (stored : ℕ → Option (List ℚ)) (idx p : ℕ) : ℚ :=
  (sumScope elements idx).foldr (fun pe acc => contribSeries pe.2 (stored pe.1) p + acc) 0

/-! ## `calculate_calc_values` (calculator module, lines 1547-1607) -/

/-- The literal token `[n]` replaced in a formula. -/
def refToken (n : ℕ) : List Char := '[' :: (Nat.repr n).toList ++ [']']

/-- Fuelled `str.replace(pat, rep)` (all non-overlapping occurrences,
left to right); each step consumes at least one character of `s`, so
`s.length + 1` fuel always suffices.  The empty pattern never occurs
(tokens are nonempty). -/
def replaceAllF (pat rep : List Char) : ℕ → List Char → List Char
  | 0, s => s
  | _ + 1, [] => []
  | fuel + 1, c :: rest =>
    if pat ≠ [] ∧ pat.isPrefixOf (c :: rest) then
      rep ++ replaceAllF pat rep fuel ((c :: rest).drop pat.length)
    else c :: replaceAllF pat rep fuel rest

/-- `formula_str.replace(pat, rep)`. -/
def replaceAll (s pat rep : List Char) : List Char :=
  replaceAllF pat rep (s.length + 1) s

/-- Fuelled scanner for `re.sub(r'(\d+(?:\.\d+)?)%', r'(\1/100)', s)`:
at each position try to match a digit run, an optional fraction, and a
`%`; on failure advance one character (any strict suffix of a failing
digit run fails the same way, so single-character stepping is
faithful to the regex engine). -/
def percentRewriteF : ℕ → List Char → List Char
  | 0, s => s
  | _ + 1, [] => []
  | fuel + 1, c :: rest =>
    if c.isDigit then
      let s := c :: rest
      let ds := s.takeWhile Char.isDigit
      let r1 := s.dropWhile Char.isDigit
      let numTok :=
        match r1 with
        | '.' :: t => if t.takeWhile Char.isDigit = [] then ds else ds ++ '.' :: t.takeWhile Char.isDigit
        | _ => ds
      let r2 :=
        match r1 with
        | '.' :: t => if t.takeWhile Char.isDigit = [] then r1 else t.dropWhile Char.isDigit
        | _ => r1
      match r2 with
      | '%' :: r3 => '(' :: numTok ++ '/' :: '1' :: '0' :: '0' :: ')' :: percentRewriteF fuel r3
      | _ => c :: percentRewriteF fuel rest
    else c :: percentRewriteF fuel rest

/-- The trailing-percent rewrite `X%` to `(X/100)` applied to the
substituted formula. -/
def percentRewrite (s : List Char) : List Char :=
  percentRewriteF (s.length + 1) s

/-- The per-period formula string built by `calculate_calc_values`:
every `[n]` token whose reference resolves to an element is replaced by
the rendered value of that reference at this period (`str(float(value))`,
rendering abstracted as `render`), then the percent rewrite is applied.
`refValue n` is the value series behind reference `n` (Account `final`,
Placeholder literals, Sum/Calc stored series, zero for other element
kinds), `none` when no element carries that reference. -/
def substCalcFormula (render : ℚ → List Char) (formula : List Char)
    (refValue : ℕ → Option (ℕ → ℚ)) (p : ℕ) : List Char :=
  let fstr :=
    (findRefNums formula).foldl
      (fun acc n =>
        match refValue n with
        | some f => replaceAll acc (refToken n) (render (f p))
        | none => acc)
      formula
  percentRewrite fstr

/-- `calculate_calc_values(elem, stored_values, references, elements,
num_periods)`: for each period independently, build the substituted
formula, evaluate it (`eval` plus the `Decimal(str(...))` conversion,
abstracted as `ev`; `none` models any exception), quantize to 2 decimal
places, and fall back to zero when evaluation fails. -/
def calculateCalcValues (ev : List Char → Option ℚ) (render : ℚ → List Char)
    (formula : List Char) (refValue : ℕ → Option (ℕ → ℚ)) (numPeriods : ℕ) : List ℚ :=
  (List.range numPeriods).map (fun p =>
    match ev (substCalcFormula render formula refValue p) with
    | some v => quantize2 v
    | none => 0)

/-- The parser's reference invariant: every positive reference tag is
carried by at most one element, and only when the `references` dict has
bound it. -/
def RefInv (st : PState) : Prop :=
  ∀ n : ℕ, 0 < n →
    refCount st.elements n ≤ if (refLookup st.references n).isSome then 1 else 0

/-! ## Theorems -/

theorem dropWhile_noSpace (l : List Char) (h : ∀ c ∈ l, isSpaceChar c = false) :
    l.dropWhile isSpaceChar = l := by
  cases l with
  | nil => rfl
  | cons a t => exact List.dropWhile_cons_of_neg (by simp [h a (List.mem_cons_self a t)])

theorem trimChars_noSpace (l : List Char) (h : ∀ c ∈ l, isSpaceChar c = false) :
    trimChars l = l := by
  unfold trimChars
  rw [dropWhile_noSpace l h,
    dropWhile_noSpace l.reverse (fun c hc => h c (List.mem_reverse.mp hc)),
    List.reverse_reverse]

theorem find?_decompose {α : Type} (p : α → Bool) :
    ∀ (l : List α) (a : α), l.find? p = some a →
      p a = true ∧ ∃ pre post, l = pre ++ a :: post ∧ ∀ x ∈ pre, p x = false := by
  intro l
  induction l with
  | nil => intro a h; cases h
  | cons b t ih =>
    intro a h
    cases hp : p b with
    | true =>
      rw [List.find?_cons_of_pos _ hp] at h
      injection h with h'
      subst h'
      exact ⟨hp, [], t, rfl, by intro x hx; cases hx⟩
    | false =>
      rw [List.find?_cons_of_neg _ (by simp [hp])] at h
      obtain ⟨hpa, pre, post, heq, hpre⟩ := ih a h
      refine ⟨hpa, b :: pre, post, by rw [heq]; rfl, ?_⟩
      intro x hx
      rcases List.mem_cons.mp hx with rfl | hx2
      · exact hp
      · exact hpre x hx2

/-- `roundHalfEvenInt` lands within half a unit of its argument, and a
tie is resolved to an even integer. -/
theorem roundHalfEvenInt_spec (x : ℚ) :
    |(roundHalfEvenInt x : ℚ) - x| ≤ 1 / 2
    ∧ (|(roundHalfEvenInt x : ℚ) - x| = 1 / 2 → roundHalfEvenInt x % 2 = 0) := by
  have h1 : ((⌊x⌋ : ℤ) : ℚ) ≤ x := Int.floor_le x
  have h2 : x < (⌊x⌋ : ℚ) + 1 := Int.lt_floor_add_one x
  unfold roundHalfEvenInt
  dsimp only
  split_ifs with ha hb hc
  · constructor
    · rw [abs_sub_comm, abs_of_nonneg (by linarith)]
      linarith
    · intro he
      rw [abs_sub_comm, abs_of_nonneg (by linarith)] at he
      linarith
  · constructor
    · rw [abs_of_nonneg (by push_cast; linarith)]
      push_cast
      linarith
    · intro he
      rw [abs_of_nonneg (by push_cast; linarith)] at he
      push_cast at he
      linarith
  · have hr : x - (⌊x⌋ : ℚ) = 1 / 2 := le_antisymm (not_lt.mp hb) (not_lt.mp ha)
    constructor
    · rw [abs_sub_comm, abs_of_nonneg (by linarith)]
      linarith
    · intro _
      exact hc
  · have hr : x - (⌊x⌋ : ℚ) = 1 / 2 := le_antisymm (not_lt.mp hb) (not_lt.mp ha)
    constructor
    · rw [abs_of_nonneg (by push_cast; linarith)]
      push_cast
      linarith
    · intro _
      omega

/-- `quantize2` returns a multiple of a cent within half a cent of its
argument, resolving an exact half-cent tie to the even cent. -/
theorem quantize2_spec (q : ℚ) :
    ∃ n : ℤ, quantize2 q = (n : ℚ) / 100
      ∧ |(n : ℚ) / 100 - q| ≤ 1 / 200
      ∧ (|(n : ℚ) / 100 - q| = 1 / 200 → n % 2 = 0) := by
  obtain ⟨hle, htie⟩ := roundHalfEvenInt_spec (q * 100)
  refine ⟨roundHalfEvenInt (q * 100), rfl, ?_, ?_⟩
  · have hrw : (roundHalfEvenInt (q * 100) : ℚ) / 100 - q
        = ((roundHalfEvenInt (q * 100) : ℚ) - q * 100) / 100 := by ring
    rw [hrw, abs_div, abs_of_pos (by norm_num : (0:ℚ) < 100)]
    linarith
  · intro he
    apply htie
    have hrw : (roundHalfEvenInt (q * 100) : ℚ) / 100 - q
        = ((roundHalfEvenInt (q * 100) : ℚ) - q * 100) / 100 := by ring
    rw [hrw, abs_div, abs_of_pos (by norm_num : (0:ℚ) < 100)] at he
    linarith

/-- Claim C10.  For every list of Decimal values and every Decimal operand,
applying the `%` operation returns exactly the same result list as
applying the `*` operation with the same operand: the `%` operator
multiplies each value by the operand. -/
theorem C10_percent_equals_times (values : List ℚ) (operand : ℚ) :
    applyOperation values ('%', operand) = applyOperation values ('*', operand) := rfl

/-- Claim C1, counterexample.  At the working series `[0.05]` with operation
`* 0.5` the exact per-period result is the half-cent `0.025`;
`apply_operation` returns `0.02` (ties to even), while the claim's
round-to-nearest-cent-ties-away-from-zero gives `0.03`, so the claim's
rounding rule is not the one the code implements. -/
theorem C1_counterexample :
    applyOperation [1/20] ('*', 1/2) = [1/50]
    ∧ roundCentsAway (opRaw '*' (1/2) (1/20)) = 3/100
    ∧ applyOperation [1/20] ('*', 1/2) ≠ [roundCentsAway (opRaw '*' (1/2) (1/20))] := by
  have h1 : opRaw '*' ((1:ℚ)/2) (1/20) = (1:ℚ)/40 := by norm_num [opRaw]
  have h2 : quantize2 ((1:ℚ)/40) = 1/50 := by norm_num [quantize2, roundHalfEvenInt]
  have h3 : applyOperation [1/20] ('*', 1/2) = [1/50] := by
    show List.map (fun v => quantize2 (opRaw '*' ((1:ℚ)/2) v)) [1/20] = [1/50]
    rw [List.map_cons, List.map_nil, h1, h2]
  have h4 : roundCentsAway ((1:ℚ)/40) = 3/100 := by
    norm_num [roundCentsAway, roundHalfAwayInt]
  refine ⟨h3, by rw [h1, h4], ?_⟩
  rw [h3, h1, h4]
  intro hcontra
  have : ((1:ℚ)/50) = 3/100 := by injection hcontra
  norm_num at this

/-- Claim C1, amended.  Applying a declared operation rounds every resulting
per-period value to 2 decimal places with round-to-nearest-cent and ties
to the even cent (banker's rounding, the `Decimal.quantize` default):
each output value is a whole number of cents, lies within half a cent of
the exact per-period result `value OP operand`, and an exact half-cent
tie yields an even number of cents. -/
theorem C1_amended_rounds_half_even (values : List ℚ) (op : Char) (operand : ℚ) (i : ℕ)
    (v : ℚ) (hv : values.get? i = some v) :
    ∃ n : ℤ, (applyOperation values (op, operand)).get? i = some ((n : ℚ) / 100)
      ∧ |(n : ℚ) / 100 - opRaw op operand v| ≤ 1 / 200
      ∧ (|(n : ℚ) / 100 - opRaw op operand v| = 1 / 200 → n % 2 = 0) := by
  obtain ⟨n, hq, hle, htie⟩ := quantize2_spec (opRaw op operand v)
  refine ⟨n, ?_, hle, htie⟩
  show (List.map (fun w => quantize2 (opRaw op operand w)) values).get? i = some ((n : ℚ) / 100)
  rw [List.get?_map, hv, Option.map_some', hq]

/-- Claim C1, witness for the amended theorem at the half-cent input. -/
theorem C1_amended_witness :
    ∃ n : ℤ, (applyOperation [1/20] ('*', 1/2)).get? 0 = some ((n : ℚ) / 100)
      ∧ |(n : ℚ) / 100 - opRaw '*' (1/2) (1/20)| ≤ 1 / 200
      ∧ (|(n : ℚ) / 100 - opRaw '*' (1/2) (1/20)| = 1 / 200 → n % 2 = 0) :=
  C1_amended_rounds_half_even [1/20] '*' (1/2) 0 (1/20) rfl

/-- Claim C3, counterexample.  The split-value string `"1/0"` has the
`<int>/<int>` shape with a zero denominator; `parse_gnucash_value`
raises `DivisionByZero` on it rather than yielding zero, so the parser
is not total and a zero denominator is not treated as zero. -/
theorem C3_counterexample :
    parseGnucashValue ("1/0".toList) = .error ()
    ∧ parseGnucashValue ("1/0".toList) ≠ .ok 0 := by decide

/-- Claim C3, amended.  `parse_gnucash_value` yields Decimal zero without
raising for any string that does not split on `/` into exactly two
fields; when it does split into two fields, it raises if either field is
not a valid decimal literal or if the denominator is zero, and otherwise
returns the quotient rounded to 2 decimal places. -/
theorem C3_amended_split_behavior (s : List Char) :
    ((splitOnChar '/' s).length ≠ 2 → parseGnucashValue s = .ok 0)
    ∧ (∀ a b, splitOnChar '/' s = [a, b] →
        (((decimalOfChars a).isNone ∨ (decimalOfChars b).isNone) →
          parseGnucashValue s = .error ())
        ∧ (∀ n d, decimalOfChars a = some n → decimalOfChars b = some d →
            parseGnucashValue s = if d = 0 then .error () else .ok (quantize2 (n / d)))) := by
  constructor
  · intro hlen
    unfold parseGnucashValue
    split
    · next a b heq => exact absurd (by rw [heq]; rfl) hlen
    · rfl
  · intro a b heq
    constructor
    · intro hnone
      cases hna : decimalOfChars a <;> cases hnb : decimalOfChars b <;>
        simp [parseGnucashValue, heq, hna, hnb] at hnone ⊢
    · intro n d hn hd
      simp [parseGnucashValue, heq, hn, hd]

/-- Claim C3, witness: a string with no `/` yields zero. -/
theorem C3_amended_witness : parseGnucashValue ("abc".toList) = .ok 0 :=
  (C3_amended_split_behavior ("abc".toList)).1 (by decide)

/-- Claim C4, evaluation at the failing input.  For `start = 2025-01-15`,
`end = 2025-03-10`, monthly, the generated periods stop at
`(2025-02-01, 2025-02-28)`: the last period's end is not `end` and
March 1-10 is uncovered, because the loop cursor keeps the start date's
day-of-month and `2025-03-15` already exceeds `end`.  For
`start = 2025-01-31` the cursor advance even raises `ValueError`
(`2025-02-31` does not exist). -/
theorem C4_code_bug_eval :
    getPeriodRanges ⟨2025, 1, 15⟩ ⟨2025, 3, 10⟩ ['m'] =
      some [(⟨2025, 1, 15⟩, ⟨2025, 1, 31⟩), (⟨2025, 2, 1⟩, ⟨2025, 2, 28⟩)]
    ∧ (⟨2025, 2, 28⟩ : Date) ≠ ⟨2025, 3, 10⟩
    ∧ getPeriodRanges ⟨2025, 1, 31⟩ ⟨2025, 3, 31⟩ ['m'] = none := by decide

/-- Claim C6.  For every CALC element, if evaluating the substituted formula
for period `p` fails, the CALC's value for that period is zero while
every other period's value is computed normally (replacing the evaluator
by any evaluator that agrees on the other periods' formulas leaves those
values unchanged); the computation is total, so the failure never aborts
the calculation. -/
theorem C6_calc_error_isolated (ev ev' : List Char → Option ℚ) (render : ℚ → List Char)
    (formula : List Char) (refValue : ℕ → Option (ℕ → ℚ)) (numPeriods p : ℕ)
    (hp : p < numPeriods)
    (hfail : ev (substCalcFormula render formula refValue p) = none)
    (hagree : ∀ q, q < numPeriods → q ≠ p →
      ev (substCalcFormula render formula refValue q) =
        ev' (substCalcFormula render formula refValue q)) :
    (calculateCalcValues ev render formula refValue numPeriods).length = numPeriods
    ∧ (calculateCalcValues ev render formula refValue numPeriods).get? p = some 0
    ∧ ∀ q, q < numPeriods → q ≠ p →
        (calculateCalcValues ev render formula refValue numPeriods).get? q =
          (calculateCalcValues ev' render formula refValue numPeriods).get? q := by
  refine ⟨?_, ?_, ?_⟩
  · simp [calculateCalcValues]
  · unfold calculateCalcValues
    rw [List.get?_map, List.get?_range hp, Option.map_some', hfail]
  · intro q hq hne
    unfold calculateCalcValues
    rw [List.get?_map, List.get?_map, List.get?_range hq, Option.map_some', Option.map_some',
      hagree q hq hne]

/-- Claim C6, witness: with an evaluator failing on every formula, a two-period
CALC row keeps period 1 at the zero both evaluators compute while
period 0 is zeroed by the failure. -/
theorem sumSeries_eq_scopeSum (elements : List Elem) (stored : ℕ → Option (List ℚ)) :
    ∀ idx p, idx ≤ elements.length →
      sumSeries elements stored idx p = scopeSum elements stored idx p := by
  intro idx
  induction idx with
  | zero =>
    intro p _
    simp [sumSeries, scopeSum, sumScope]
  | succ i ih =>
    intro p hle
    have hlt : i < elements.length := Nat.lt_of_succ_le hle
    have hget : elements.get? i = some (elements.get ⟨i, hlt⟩) := List.get?_eq_get hlt
    have henum : elements.enum.get? i = some (i, elements.get ⟨i, hlt⟩) := by
      rw [List.get?_enum, hget]
      rfl
    have htake : elements.enum.take (i + 1)
        = elements.enum.take i ++ [(i, elements.get ⟨i, hlt⟩)] := by
      rw [List.take_succ]
      rw [← List.get?_eq_getElem?, henum]
      rfl
    have hscope : (elements.enum.take (i + 1)).reverse
        = (i, elements.get ⟨i, hlt⟩) :: (elements.enum.take i).reverse := by
      rw [htake, List.reverse_append]
      rfl
    show sumSeries elements stored (i + 1) p = scopeSum elements stored (i + 1) p
    unfold scopeSum sumScope
    rw [hscope]
    unfold sumSeries
    rw [hget]
    dsimp only
    by_cases hb : isBoundaryElem (elements.get ⟨i, hlt⟩)
    · rw [if_pos hb]
      rw [List.get_eq_getElem] at hb
      rw [List.takeWhile_cons_of_neg (by simp [hb])]
      rfl
    · rw [if_neg hb]
      rw [List.get_eq_getElem] at hb
      rw [List.takeWhile_cons_of_pos (by simp [hb])]
      rw [List.foldr_cons]
      have := ih p (Nat.le_of_lt hlt)
      unfold scopeSum sumScope at this
      rw [this]

/-- Claim C5.  For every SUM element and every period, the SUM's value is the
pointwise sum, over the maximal run of elements immediately before it
that contains no Title, Sum, or Calc element (the backward scan's
exclusive stop), of the stored `final` series of Account elements and
the literal value series of Placeholder elements; Section and Blank
elements inside the run contribute nothing and do not end it. -/
theorem C5_sum_scope (elements : List Elem) (stored : ℕ → Option (List ℚ))
    (idx numPeriods : ℕ) (h : idx ≤ elements.length) :
    calculateSumValues elements stored idx numPeriods =
      (List.range numPeriods).map (fun p => scopeSum elements stored idx p) := by
  unfold calculateSumValues
  have hfun : (fun p => sumSeries elements stored idx p)
      = fun p => scopeSum elements stored idx p :=
    funext (fun p => sumSeries_eq_scopeSum elements stored idx p h)
  rw [hfun]

/-- Claim C5, witness: a SUM at index 3 preceded by an Account row, a
Placeholder row and a Title boundary sums exactly the two data rows. -/
theorem C5_sum_scope_witness :
    calculateSumValues
        [⟨1, none, .tit ['t']⟩, ⟨2, none, .acct ⟨['g'], none, none, false, none, [], []⟩⟩,
          ⟨3, none, .placeholder ['p'] [2, 3]⟩, ⟨4, none, .sumE ['s']⟩]
        (fun i => if i = 1 then some [5, 7] else none) 3 2 =
      (List.range 2).map
        (fun p => scopeSum
          [⟨1, none, .tit ['t']⟩, ⟨2, none, .acct ⟨['g'], none, none, false, none, [], []⟩⟩,
            ⟨3, none, .placeholder ['p'] [2, 3]⟩, ⟨4, none, .sumE ['s']⟩]
          (fun i => if i = 1 then some [5, 7] else none) 3 p) :=
  C5_sum_scope _ _ 3 2 (by decide)

/-- The default-zero lookup of an all-zero stored series is zero at every
period. -/
theorem replicate_getD_zero (n p : ℕ) : (List.replicate n (0 : ℚ)).getD p 0 = 0 := by
  induction n generalizing p with
  | zero => simp [List.getD]
  | succ m ih =>
    cases p with
    | zero => rfl
    | succ q => exact ih q

/-- Claim C8.  An Account element whose target id is absent from the account
registry gets all-zero `raw` and `final` series with `valid = false`
(and no filtered series), without raising; and any stored all-zero
`final` series contributes nothing to a SUM scan: removing it from the
stored map leaves every SUM value unchanged, so the error stays scoped
to that row. -/
theorem C8_missing_account (elem : AccountData) (accounts : List (List Char × Account))
    (invertIncome : Bool) (baseCache : List Char → ℕ → ℚ)
    (filteredCaches : CacheKey → Option (ℕ → ℚ)) (numPeriods : ℕ)
    (h : lookupAcc accounts elem.guid = none) :
    calculateAccountValues elem accounts invertIncome baseCache filteredCaches numPeriods =
      ⟨List.replicate numPeriods 0, none, none, List.replicate numPeriods 0, false⟩
    ∧ ∀ (elements : List Elem) (stored : ℕ → Option (List ℚ)) (j idx p : ℕ),
        stored j = some (List.replicate numPeriods 0) →
        sumSeries elements stored idx p =
          sumSeries elements (fun i => if i = j then none else stored i) idx p := by
  constructor
  · unfold calculateAccountValues
    rw [h]
  · intro elements stored j idx p hj
    induction idx with
    | zero => rfl
    | succ i ih =>
      unfold sumSeries
      cases hget : elements.get? i with
      | none => rfl
      | some e =>
        dsimp only
        by_cases hb : isBoundaryElem e
        · rw [if_pos hb, if_pos hb]
        · rw [if_neg hb, if_neg hb, ih]
          congr 1
          by_cases hij : i = j
          · subst hij
            rw [hj]
            simp only [if_pos rfl]
            cases e.kind <;> simp [contribSeries, replicate_getD_zero]
          · rw [if_neg hij]

/-- Claim C8, witness: a missing account id yields the zero, invalid result,
and dropping a stored all-zero series from a SUM scan changes nothing. -/
theorem C8_missing_account_witness :
    calculateAccountValues ⟨['x'], none, none, false, none, [], []⟩ [] true
        (fun _ _ => 0) (fun _ => none) 2 =
      ⟨List.replicate 2 0, none, none, List.replicate 2 0, false⟩
    ∧ sumSeries [⟨1, none, .acct ⟨['x'], none, none, false, none, [], []⟩⟩]
        (fun _ => some (List.replicate 2 0)) 1 0 =
      sumSeries [⟨1, none, .acct ⟨['x'], none, none, false, none, [], []⟩⟩]
        (fun i => if i = 0 then none else some (List.replicate 2 0)) 1 0 :=
  ⟨(C8_missing_account ⟨['x'], none, none, false, none, [], []⟩ [] true (fun _ _ => 0)
      (fun _ => none) 2 rfl).1,
    (C8_missing_account ⟨['x'], none, none, false, none, [], []⟩ [] true (fun _ _ => 0)
      (fun _ => none) 2 rfl).2 _ _ 0 1 0 rfl⟩

theorem foldKeys_not_mem (rmatch : List Char → List Char → Bool) (txn : Transaction)
    (pIdx : ℕ) :
    ∀ (keys : List CacheKey) (cs : CacheKey → ℕ → ℚ) (key : CacheKey), key ∉ keys →
      keys.foldl (updKeyStep rmatch txn pIdx) cs key = cs key := by
  intro keys
  induction keys with
  | nil => intro cs key _; rfl
  | cons k ks ih =>
    intro cs key hk
    have hne : key ≠ k := fun hh => hk (hh ▸ List.mem_cons_self k ks)
    have hnotin : key ∉ ks := fun hh => hk (List.mem_cons_of_mem k hh)
    show ks.foldl (updKeyStep rmatch txn pIdx) (updKeyStep rmatch txn pIdx cs k) key
        = cs key
    rw [ih _ key hnotin]
    unfold updKeyStep
    rw [if_neg hne]

theorem foldKeys_mem (rmatch : List Char → List Char → Bool) (txn : Transaction) (pIdx : ℕ) :
    ∀ (keys : List CacheKey) (cs : CacheKey → ℕ → ℚ) (key : CacheKey),
      keys.Nodup → key ∈ keys →
      keys.foldl (updKeyStep rmatch txn pIdx) cs key
        = applyTxnToKey rmatch key txn pIdx (cs key) := by
  intro keys
  induction keys with
  | nil => intro cs key _ hmem; cases hmem
  | cons k ks ih =>
    intro cs key hnd hmem
    have hnd2 := List.nodup_cons.mp hnd
    show ks.foldl (updKeyStep rmatch txn pIdx) (updKeyStep rmatch txn pIdx cs k) key
        = applyTxnToKey rmatch key txn pIdx (cs key)
    rcases List.mem_cons.mp hmem with hkey | hkey
    · subst hkey
      rw [foldKeys_not_mem rmatch txn pIdx ks _ key hnd2.1]
      unfold updKeyStep
      rw [if_pos rfl]
    · have hne : key ≠ k := fun hh => hnd2.1 (hh ▸ hkey)
      rw [ih _ key hnd2.2 hkey]
      unfold updKeyStep
      rw [if_neg hne]

theorem processTxnAll_at_key (rmatch : List Char → List Char → Bool)
    (periodRanges : List (Date × Date)) (keys : List CacheKey) (key : CacheKey)
    (caches : CacheKey → ℕ → ℚ) (txn : Transaction) (hnd : keys.Nodup) (hmem : key ∈ keys) :
    processTxnAll rmatch periodRanges keys caches txn key
      = processTxnSingle rmatch periodRanges key (caches key) txn := by
  unfold processTxnAll processTxnSingle
  cases txn.datePosted with
  | none => rfl
  | some d =>
    dsimp only
    cases findPeriodIdx periodRanges d with
    | none => rfl
    | some pIdx => exact foldKeys_mem rmatch txn pIdx keys caches key hnd hmem

theorem buildAll_slice (rmatch : List Char → List Char → Bool)
    (periodRanges : List (Date × Date)) (keys : List CacheKey) (key : CacheKey)
    (hnd : keys.Nodup) (hmem : key ∈ keys) :
    ∀ (txs : List Transaction) (caches : CacheKey → ℕ → ℚ) (c : ℕ → ℚ),
      caches key = c →
      txs.foldl (processTxnAll rmatch periodRanges keys) caches key
        = txs.foldl (processTxnSingle rmatch periodRanges key) c := by
  intro txs
  induction txs with
  | nil => intro caches c hc; exact hc
  | cons txn txs ih =>
    intro caches c hc
    refine ih _ _ ?_
    rw [processTxnAll_at_key rmatch periodRanges keys key caches txn hnd hmem, hc]

theorem counted_spec (rmatch : List Char → List Char → Bool)
    (periodRanges : List (Date × Date)) (keys : List CacheKey) :
    ∀ (txs : List Transaction) (st : (CacheKey → ℕ → ℚ) × ℕ),
      (txs.foldl (fun st txn => (processTxnAll rmatch periodRanges keys st.1 txn, st.2 + 1))
          st).2 = st.2 + txs.length
      ∧ (txs.foldl (fun st txn => (processTxnAll rmatch periodRanges keys st.1 txn, st.2 + 1))
          st).1 = txs.foldl (processTxnAll rmatch periodRanges keys) st.1 := by
  intro txs
  induction txs with
  | nil => intro st; exact ⟨rfl, rfl⟩
  | cons txn txs ih =>
    intro st
    refine ⟨?_, ?_⟩
    · show (txs.foldl _ (processTxnAll rmatch periodRanges keys st.1 txn, st.2 + 1)).2
          = st.2 + (txs.length + 1)
      rw [(ih _).1]
      omega
    · exact (ih _).2

/-- Claim C9.  The cache builder `build_all_filtered_caches` visits each of the M transactions
exactly once — the instrumented builder's visit counter equals the store
size no matter how many keys are requested, and it computes the same cache
map — and for every requested key it produces exactly the per-period
totals that a dedicated single-key pass over the store produces. -/
theorem C9_single_pass (rmatch : List Char → List Char → Bool) (txs : List Transaction)
    (periodRanges : List (Date × Date)) (keys : List CacheKey) (key : CacheKey) (p : ℕ)
    (hnd : keys.Nodup) (hmem : key ∈ keys) :
    (buildAllCachesCounted rmatch txs periodRanges keys).2 = txs.length
    ∧ (buildAllCachesCounted rmatch txs periodRanges keys).1
        = buildAllFilteredCaches rmatch txs periodRanges keys
    ∧ buildAllFilteredCaches rmatch txs periodRanges keys key p
        = buildSingleFilteredCache rmatch txs periodRanges key p := by
  refine ⟨?_, (counted_spec rmatch periodRanges keys txs _).2, ?_⟩
  · have hcount := (counted_spec rmatch periodRanges keys txs ((fun _ _ => 0), 0)).1
    simpa using hcount
  unfold buildAllFilteredCaches buildSingleFilteredCache
  rw [buildAll_slice rmatch periodRanges keys key hnd hmem txs (fun _ _ => 0) (fun _ => 0) rfl]

/-- Claim C9, witness: one key, one in-period transaction. -/
theorem C9_single_pass_witness :
    (buildAllCachesCounted (fun _ _ => true)
        [⟨some ⟨2025, 1, 5⟩, [], [⟨['a'], some 3⟩]⟩] [(⟨2025, 1, 1⟩, ⟨2025, 1, 31⟩)]
        [⟨['a'], none, none, none⟩]).2 = 1
    ∧ (buildAllCachesCounted (fun _ _ => true)
        [⟨some ⟨2025, 1, 5⟩, [], [⟨['a'], some 3⟩]⟩] [(⟨2025, 1, 1⟩, ⟨2025, 1, 31⟩)]
        [⟨['a'], none, none, none⟩]).1
        = buildAllFilteredCaches (fun _ _ => true)
            [⟨some ⟨2025, 1, 5⟩, [], [⟨['a'], some 3⟩]⟩] [(⟨2025, 1, 1⟩, ⟨2025, 1, 31⟩)]
            [⟨['a'], none, none, none⟩]
    ∧ buildAllFilteredCaches (fun _ _ => true)
          [⟨some ⟨2025, 1, 5⟩, [], [⟨['a'], some 3⟩]⟩] [(⟨2025, 1, 1⟩, ⟨2025, 1, 31⟩)]
          [⟨['a'], none, none, none⟩] ⟨['a'], none, none, none⟩ 0
        = buildSingleFilteredCache (fun _ _ => true)
            [⟨some ⟨2025, 1, 5⟩, [], [⟨['a'], some 3⟩]⟩] [(⟨2025, 1, 1⟩, ⟨2025, 1, 31⟩)]
            ⟨['a'], none, none, none⟩ 0 :=
  C9_single_pass (fun _ _ => true) [⟨some ⟨2025, 1, 5⟩, [], [⟨['a'], some 3⟩]⟩]
    [(⟨2025, 1, 1⟩, ⟨2025, 1, 31⟩)] [⟨['a'], none, none, none⟩] ⟨['a'], none, none, none⟩ 0
    (by decide) (by decide)

theorem C6_calc_error_isolated_witness :
    (calculateCalcValues (fun _ => none) (fun _ => []) [] (fun _ => none) 2).length = 2
    ∧ (calculateCalcValues (fun _ => none) (fun _ => []) [] (fun _ => none) 2).get? 0 = some 0
    ∧ ∀ q, q < 2 → q ≠ 0 →
        (calculateCalcValues (fun _ => none) (fun _ => []) [] (fun _ => none) 2).get? q =
          (calculateCalcValues (fun _ => none) (fun _ => []) [] (fun _ => none) 2).get? q :=
  C6_calc_error_isolated (fun _ => none) (fun _ => none) (fun _ => []) [] (fun _ => none) 2 0
    (by decide) rfl (fun _ _ _ => rfl)

/-- Claim C2, counterexample.  In the id-and-operation substring `id-5*2` the
first operator character in string position order is `-` (position 2),
but the parser splits at `*`: the operator is chosen by the fixed
candidate order `* / + - %`, not by string position. -/
theorem C2_counterexample :
    parseGuidAndOp ("id-5*2".toList) = .ok ("id-5".toList, some ('*', 2))
    ∧ firstOpByPosition ("id-5*2".toList) = some '-'
    ∧ ('-' : Char) ≠ '*' := by
  refine ⟨by decide, by decide, by decide⟩

/-- Claim C2, amended.  The parser selects as the operator the first character
of the fixed candidate order `*`, `/`, `+`, `-`, `%` that occurs
anywhere in the id-and-operation substring (candidate-list priority, so
every earlier candidate is absent from the substring), splits the
substring at that character's first occurrence into the stripped account
id and the operand text handed to `parse_operation`, and a trailing `%`
on a well-formed operand makes the parsed operand the literal divided by
100. -/
theorem C2_amended_operator_priority (s : List Char) (o : Char)
    (hfind : opChars.find? (fun c => s.contains c) = some o) :
    (s.contains o = true
      ∧ ∃ pre post, opChars = pre ++ o :: post ∧ ∀ c ∈ pre, s.contains c = false)
    ∧ parseGuidAndOp s =
        (match parseOperation (o :: (s.dropWhile (fun c => c ≠ o)).tail) with
         | .ok oper => .ok (trimChars (s.takeWhile (fun c => c ≠ o)), oper)
         | .error e => .error e)
    ∧ ∀ t q, (∀ c ∈ t, isSpaceChar c = false) → decimalOfChars t = some q →
        parseOperation (o :: (t ++ ['%'])) = .ok (some (o, q / 100)) := by
  obtain ⟨hpo, pre, post, hdec, hpre⟩ := find?_decompose (fun c => s.contains c) opChars o hfind
  have homem : o ∈ opChars := by rw [hdec]; exact List.mem_append_right pre (List.mem_cons_self o post)
  have hocases : o = '*' ∨ o = '/' ∨ o = '+' ∨ o = '-' ∨ o = '%' := by
    simpa [opChars] using homem
  refine ⟨⟨hpo, pre, post, hdec, hpre⟩, ?_, ?_⟩
  · unfold parseGuidAndOp
    rw [hfind]
  · intro t q ht hq
    have htne : t ≠ [] := by
      intro hnil
      subst hnil
      exact Option.noConfusion hq
    obtain ⟨th, tt, rfl⟩ : ∃ th tt, t = th :: tt := by
      cases t with
      | nil => exact absurd rfl htne
      | cons a b => exact ⟨a, b, rfl⟩
    have hos : isSpaceChar o = false := by
      rcases hocases with rfl | rfl | rfl | rfl | rfl <;> decide
    have hall : ∀ c ∈ o :: (th :: tt ++ ['%']), isSpaceChar c = false := by
      intro c hc
      rcases List.mem_cons.mp hc with rfl | hc2
      · exact hos
      · rcases List.mem_append.mp hc2 with hc3 | hc4
        · exact ht c hc3
        · rcases List.mem_singleton.mp hc4 with rfl
          decide
    have htail : ∀ c ∈ th :: (tt ++ ['%']), isSpaceChar c = false := by
      intro c hc
      exact hall c (List.mem_cons_of_mem o hc)
    have hcont : opChars.contains o = true := by
      rcases hocases with rfl | rfl | rfl | rfl | rfl <;> decide
    unfold parseOperation
    rw [trimChars_noSpace _ hall]
    dsimp only
    rw [if_pos hcont]
    have hdrop : (th :: tt ++ ['%']).dropWhile isSpaceChar = th :: (tt ++ ['%']) :=
      dropWhile_noSpace _ htail
    rw [hdrop]
    dsimp only
    rw [trimChars_noSpace _ htail]
    have hlast : (th :: (tt ++ ['%'])).getLast? = some '%' := by
      show ((th :: tt) ++ ['%']).getLast? = some '%'
      rw [List.getLast?_concat]
    rw [hlast]
    have hdl : (th :: (tt ++ ['%'])).dropLast = th :: tt := by
      show ((th :: tt) ++ ['%']).dropLast = th :: tt
      rw [List.dropLast_concat]
    rw [hdl, hq]
    rfl

/-- Claim C2, witness for the amended theorem: the operand `90%` after the
selected `*` operator parses to the operator paired with `90 / 100`. -/
theorem C2_amended_witness :
    parseOperation ('*' :: ("90".toList ++ ['%'])) = .ok (some ('*', (90 : ℚ) / 100)) :=
  (C2_amended_operator_priority ("a*1".toList) '*' (by decide)).2.2 ("90".toList) 90
    (by decide) (by decide)


theorem refLookup_append_of_some (rs : List (ℕ × ℕ)) (t : List (ℕ × ℕ)) (n l : ℕ)
    (h : refLookup rs n = some l) : refLookup (rs ++ t) n = some l := by
  induction rs with
  | nil => cases h
  | cons p rest ih =>
    obtain ⟨m, lv⟩ := p
    replace h : (if m = n then some lv else refLookup rest n) = some l := h
    show (if m = n then some lv else refLookup (rest ++ t) n) = some l
    by_cases hp : m = n
    · rw [if_pos hp] at h ⊢
      exact h
    · rw [if_neg hp] at h ⊢
      exact ih h

theorem refLookup_append_of_none (rs : List (ℕ × ℕ)) (t : List (ℕ × ℕ)) (n : ℕ)
    (h : refLookup rs n = none) : refLookup (rs ++ t) n = refLookup t n := by
  induction rs with
  | nil => rfl
  | cons p rest ih =>
    obtain ⟨m, lv⟩ := p
    replace h : (if m = n then some lv else refLookup rest n) = none := h
    show (if m = n then some lv else refLookup (rest ++ t) n) = refLookup t n
    by_cases hp : m = n
    · rw [if_pos hp] at h
      cases h
    · rw [if_neg hp] at h ⊢
      exact ih h

theorem refCount_append (l1 l2 : List Elem) (n : ℕ) :
    refCount (l1 ++ l2) n = refCount l1 n + refCount l2 n := by
  induction l1 with
  | nil => simp [refCount]
  | cons e rest ih =>
    show (if e.ref = some n then 1 else 0) + refCount (rest ++ l2) n
        = ((if e.ref = some n then 1 else 0) + refCount rest n) + refCount l2 n
    rw [ih]
    omega

theorem refCount_set (l : List Elem) :
    ∀ (i : ℕ) (e2 : Elem) (n : ℕ), (∀ e, l.get? i = some e → e2.ref = e.ref) →
      refCount (l.set i e2) n = refCount l n := by
  induction l with
  | nil => intro i e2 n _; rfl
  | cons a rest ih =>
    intro i e2 n hrefeq
    cases i with
    | zero =>
      show refCount (e2 :: rest) n = refCount (a :: rest) n
      unfold refCount
      rw [hrefeq a rfl]
    | succ j =>
      show refCount (a :: rest.set j e2) n = refCount (a :: rest) n
      unfold refCount
      rw [ih j e2 n (fun e he => hrefeq e he)]

theorem inv_addElem (st : PState) (lineNum : ℕ) (curRef : Option ℕ) (k : ElemKind)
    (la : Option ℕ) (hInv : RefInv st)
    (hfresh : ∀ n, curRef = some n → n ≠ 0 → refLookup st.references n = none) :
    RefInv (addElem st lineNum curRef k la) := by
  intro n hn
  unfold addElem
  dsimp only
  rw [refCount_append]
  have hsingle : refCount [⟨lineNum, curRef, k⟩] n = if curRef = some n then 1 else 0 := by
    simp [refCount]
  rw [hsingle]
  cases curRef with
  | none =>
    have hrec : recordRef st.references none lineNum = st.references := rfl
    rw [hrec]
    simp only [if_neg (by simp : ¬(none : Option ℕ) = some n), Nat.add_zero]
    exact hInv n hn
  | some m =>
    have hrec : recordRef st.references (some m) lineNum
        = if m = 0 then st.references else st.references ++ [(m, lineNum)] := rfl
    rw [hrec]
    by_cases hm0 : m = 0
    · subst hm0
      rw [if_pos rfl]
      have : ¬((some 0 : Option ℕ) = some n) := by
        intro hc
        injection hc with hc2
        omega
      rw [if_neg this, Nat.add_zero]
      exact hInv n hn
    · rw [if_neg hm0]
      have hfm := hfresh m rfl hm0
      by_cases hnm : n = m
      · subst hnm
        have hcount : refCount st.elements n = 0 := by
          have := hInv n hn
          rw [hfm] at this
          simpa using this
        rw [hcount, if_pos rfl]
        have : refLookup (st.references ++ [(n, lineNum)]) n = some lineNum := by
          rw [refLookup_append_of_none _ _ _ hfm]
          unfold refLookup
          rw [if_pos rfl]
        rw [this]
        simp
      · have : ¬((some m : Option ℕ) = some n) := by
          intro hc
          injection hc with hc2
          exact hnm hc2.symm
        rw [if_neg this, Nat.add_zero]
        cases hlk : refLookup st.references n with
        | some l =>
          rw [refLookup_append_of_some _ _ _ _ hlk]
          have := hInv n hn
          rw [hlk] at this
          simpa using this
        | none =>
          rw [refLookup_append_of_none _ _ _ hlk]
          have := hInv n hn
          rw [hlk] at this
          simpa [refLookup, if_neg (by omega : ¬m = n)] using this

theorem handleConfig_fields (st : PState) (lineNum : ℕ) (today : Date) (line : List Char)
    (st2 : PState) (h : handleConfigLine st lineNum today line = .ok st2) :
    st2.elements = st.elements ∧ st2.references = st.references := by
  unfold handleConfigLine at h
  dsimp only at h
  repeat' split at h
  all_goals first
    | exact Except.noConfusion h
    | (injection h with h2; subst h2; exact ⟨rfl, rfl⟩)

theorem handleAccount_inv (st : PState) (k : ℕ) (curRef : Option ℕ) (line : List Char)
    (st2 : PState) (hInv : RefInv st)
    (hfresh : ∀ n, curRef = some n → n ≠ 0 → refLookup st.references n = none)
    (h : handleAccountLine st k curRef line = .ok st2) : RefInv st2 := by
  unfold handleAccountLine at h
  dsimp only at h
  repeat' split at h
  all_goals try exact Except.noConfusion h
  all_goals (injection h with h2; subst h2; exact inv_addElem _ _ _ _ _ hInv hfresh)

theorem handleFilter_inv (st : PState) (k : ℕ) (line : List Char) (st2 : PState)
    (hInv : RefInv st) (h : handleFilterLine st k line = .ok st2) : RefInv st2 := by
  unfold handleFilterLine at h
  dsimp only at h
  repeat' split at h
  all_goals try exact Except.noConfusion h
  all_goals (injection h with h2; subst h2)
  all_goals try exact hInv
  all_goals
    (intro n hn
     dsimp only
     rename_i x1 i hla x2 ee hget x3 aa hk
     rw [refCount_set _ _ _ _ (fun e' he' => by
       rw [hget] at he'
       injection he' with he2
       subst he2
       rfl)]
     exact hInv n hn)

theorem handleRegex_inv (st : PState) (k : ℕ) (line : List Char) (st2 : PState)
    (hInv : RefInv st) (h : handleRegexLine st k line = .ok st2) : RefInv st2 := by
  unfold handleRegexLine at h
  dsimp only at h
  repeat' split at h
  all_goals try exact Except.noConfusion h
  all_goals (injection h with h2; subst h2)
  all_goals try exact hInv
  all_goals
    (intro n hn
     dsimp only
     rename_i x1 i hla x2 ee hget x3 aa hk
     rw [refCount_set _ _ _ _ (fun e' he' => by
       rw [hget] at he'
       injection he' with he2
       subst he2
       rfl)]
     exact hInv n hn)

theorem handlePlaceholder_inv (st : PState) (k : ℕ) (curRef : Option ℕ) (line : List Char)
    (st2 : PState) (hInv : RefInv st)
    (hfresh : ∀ n, curRef = some n → n ≠ 0 → refLookup st.references n = none)
    (h : handlePlaceholderLine st k curRef line = .ok st2) : RefInv st2 := by
  unfold handlePlaceholderLine at h
  dsimp only at h
  repeat' split at h
  all_goals try exact Except.noConfusion h
  all_goals (injection h with h2; subst h2; exact inv_addElem _ _ _ _ _ hInv hfresh)

theorem handleCalc_inv (st : PState) (k : ℕ) (curRef : Option ℕ) (line : List Char)
    (st2 : PState) (hInv : RefInv st)
    (hfresh : ∀ n, curRef = some n → n ≠ 0 → refLookup st.references n = none)
    (h : handleCalcLine st k curRef line = .ok st2) : RefInv st2 := by
  unfold handleCalcLine at h
  dsimp only at h
  repeat' split at h
  all_goals try exact Except.noConfusion h
  all_goals (injection h with h2; subst h2; exact inv_addElem _ _ _ _ _ hInv hfresh)

set_option maxHeartbeats 1600000 in
theorem dispatch_inv (today : Date) (st : PState) (k : ℕ) (curRef : Option ℕ)
    (line : List Char) (st2 : PState) (hInv : RefInv st)
    (hfresh : ∀ n, curRef = some n → n ≠ 0 → refLookup st.references n = none)
    (h : dispatchLine today st k curRef line = .ok st2) : RefInv st2 := by
  unfold dispatchLine at h
  repeat' split at h
  all_goals try exact Except.noConfusion h
  all_goals try exact handleAccount_inv _ _ _ _ _ hInv hfresh h
  all_goals try exact handleFilter_inv _ _ _ _ hInv h
  all_goals try exact handleRegex_inv _ _ _ _ hInv h
  all_goals try exact handlePlaceholder_inv _ _ _ _ _ hInv hfresh h
  all_goals try exact handleCalc_inv _ _ _ _ _ hInv hfresh h
  all_goals try (injection h with h2; subst h2)
  all_goals try exact inv_addElem _ _ _ _ _ hInv hfresh
  all_goals try exact inv_addElem _ _ _ _ _ hInv (fun n hc _ => Option.noConfusion hc)
  all_goals
    (obtain ⟨he, hr⟩ := handleConfig_fields _ _ _ _ _ h
     intro n hn
     rw [he, hr]
     exact hInv n hn)

theorem processLine_inv (today : Date) (st : PState) (k : ℕ) (l : List Char) (st2 : PState)
    (hInv : RefInv st) (h : processLine today st k l = .ok st2) : RefInv st2 := by
  unfold processLine at h
  dsimp only at h
  split at h
  · injection h with h2
    subst h2
    exact hInv
  · split at h
    · next n restLine hsplit =>
      split at h
      · exact Except.noConfusion h
      · next hlook =>
        refine dispatch_inv today st k (some n) restLine st2 hInv ?_ h
        intro m hm _
        injection hm with hm2
        subst hm2
        exact hlook
    · exact dispatch_inv today st k none _ st2 hInv (fun m hm _ => Option.noConfusion hm) h

theorem parseLines_inv (today : Date) :
    ∀ (lines : List (List Char)) (st : PState) (k : ℕ) (st2 : PState),
      RefInv st → parseLines today st k lines = .ok st2 → RefInv st2 := by
  intro lines
  induction lines with
  | nil =>
    intro st k st2 hInv h
    injection h with h2
    subst h2
    exact hInv
  | cons l ls ih =>
    intro st k st2 hInv h
    unfold parseLines at h
    split at h
    · next stMid hmid => exact ih stMid (k + 1) st2 (processLine_inv today st k l stMid hInv hmid) h
    · exact Except.noConfusion h

theorem finalize_elements (today : Date) (st : PState) (cfg : ReportConfig)
    (es : List Elem) (rs : List (ℕ × ℕ)) (h : finalize today st = .ok (cfg, es, rs)) :
    es = st.elements := by
  unfold finalize at h
  dsimp only at h
  repeat' split at h
  all_goals try exact Except.noConfusion h
  all_goals (injection h with h2; exact (congrArg (fun t => t.2.1) h2).symm)

theorem parseLines_append (today : Date) (a b : List (List Char)) :
    ∀ (st : PState) (k : ℕ),
      parseLines today st k (a ++ b) =
        match parseLines today st k a with
        | .ok st2 => parseLines today st2 (k + a.length) b
        | .error e => .error e := by
  induction a with
  | nil =>
    intro st k
    rfl
  | cons l ls ih =>
    intro st k
    show (match processLine today st k l with
        | .ok st2 => parseLines today st2 (k + 1) (ls ++ b)
        | .error e => .error e) =
      (match (match processLine today st k l with
          | .ok st2 => parseLines today st2 (k + 1) ls
          | .error e => .error e) with
        | .ok st2 => parseLines today st2 (k + (l :: ls).length) b
        | .error e => .error e)
    cases hpl : processLine today st k l with
    | ok stMid =>
      dsimp only
      rw [ih stMid (k + 1)]
      have harith : k + 1 + ls.length = k + (l :: ls).length := by
        show k + 1 + ls.length = k + (ls.length + 1)
        omega
      rw [harith]
    | error e => rfl

theorem refSplit_ne_nil (s : List Char) (r : ℕ × List Char) (h : refSplit s = some r) :
    s ≠ [] := by
  intro hnil
  subst hnil
  exact Option.noConfusion h

/-- Claim C7, amended.  Reference uniqueness as the code enforces it: (1) in
every successfully parsed definition, each positive reference number is
carried by at most one element of the returned element list; (2) once an
element line has bound a positive tag `[n]` into the references table,
any later line bearing the same tag makes the whole parse raise
`DuplicateReference` reporting the later line's number and the binding
line's number.  (A tag `[0]` and tags on BLANK, FILTER, REGEX or
configuration lines are parsed but never bound, so their repetition does
not raise.) -/
theorem C7_amended_unique_refs (today : Date) :
    (∀ (lines : List (List Char)) (cfg : ReportConfig) (elems : List Elem)
       (refs : List (ℕ × ℕ)),
       parseReportDefinition today lines = .ok (cfg, elems, refs) →
       ∀ n, 0 < n → refCount elems n ≤ 1)
    ∧ (∀ (lines₁ : List (List Char)) (l : List Char) (lines₂ : List (List Char))
         (st : PState) (n firstLine : ℕ) (rest : List Char),
         parseLines today initState 1 lines₁ = .ok st →
         refLookup st.references n = some firstLine →
         refSplit (trimChars (processEscapes (stripComments l))) = some (n, rest) →
         parseReportDefinition today (lines₁ ++ l :: lines₂) =
           .error (.duplicateReference (lines₁.length + 1) n firstLine)) := by
  constructor
  · intro lines cfg elems refs h n hn
    unfold parseReportDefinition at h
    split at h
    · next st hpl =>
      have hinv0 : RefInv initState := fun m _ => Nat.zero_le _
      have hinv := parseLines_inv today lines initState 1 st hinv0 hpl
      have hes := finalize_elements today st cfg elems refs h
      rw [hes]
      have hb := hinv n hn
      exact le_trans hb (by split <;> omega)
    · exact Except.noConfusion h
  · intro lines₁ l lines₂ st n firstLine rest hpl hlook hsplit
    have hline : processLine today st (1 + lines₁.length) l
        = .error (.duplicateReference (1 + lines₁.length) n firstLine) := by
      unfold processLine
      dsimp only
      rw [if_neg (refSplit_ne_nil _ _ hsplit), hsplit]
      dsimp only
      rw [hlook]
    have htail : parseLines today st (1 + lines₁.length) (l :: lines₂)
        = .error (.duplicateReference (1 + lines₁.length) n firstLine) := by
      show (match processLine today st (1 + lines₁.length) l with
        | .ok st2 => parseLines today st2 (1 + lines₁.length + 1) lines₂
        | .error e => .error e) = _
      rw [hline]
    unfold parseReportDefinition
    rw [parseLines_append today lines₁ (l :: lines₂) initState 1, hpl]
    dsimp only
    rw [htail]
    dsimp only
    rw [Nat.add_comm 1 lines₁.length]

/-- Claim C7, counterexample.  The definition with `[0] SUM: a` and
`[0] SUM: b` repeats the same reference tag on two element lines, yet it
parses successfully (no `DuplicateReference`), and the returned element
list carries reference number 0 twice: the source records a tag only
under the truthiness test `if current_reference:`, which skips 0. -/
theorem C7_counterexample :
    parseReportDefinition ⟨2025, 6, 15⟩ [("[0] SUM: a").toList, ("[0] SUM: b").toList] =
      .ok (⟨some ⟨2025, 1, 1⟩, some ⟨2025, 12, 31⟩, ['m'], "name_only".toList, none, none,
          true⟩,
        [⟨1, some 0, .sumE ['a']⟩, ⟨2, some 0, .sumE ['b']⟩], [])
    ∧ refCount [⟨1, some 0, ElemKind.sumE ['a']⟩, ⟨2, some 0, ElemKind.sumE ['b']⟩] 0 = 2 :=
  ⟨by decide, by decide⟩

/-- Claim C7, witness for the amended theorem: at most one element carries the
tag `[1]` in a parsed one-line definition, and repeating `[1]` on a
second SUM line fails with `DuplicateReference` at line 2 citing
line 1. -/
theorem C7_amended_witness :
    refCount [⟨1, some 1, ElemKind.sumE ['a']⟩] 1 ≤ 1
    ∧ parseReportDefinition ⟨2025, 6, 15⟩ [("[1] SUM: a").toList, ("[1] SUM: b").toList] =
        .error (.duplicateReference 2 1 1) := by
  constructor
  · exact (C7_amended_unique_refs ⟨2025, 6, 15⟩).1 [("[1] SUM: a").toList]
      ⟨some ⟨2025, 1, 1⟩, some ⟨2025, 12, 31⟩, ['m'], "name_only".toList, none, none, true⟩
      [⟨1, some 1, .sumE ['a']⟩] [(1, 1)] (by decide) 1 (by decide)
  · exact (C7_amended_unique_refs ⟨2025, 6, 15⟩).2 [("[1] SUM: a").toList]
      (("[1] SUM: b").toList) [] ⟨initConfig, [⟨1, some 1, .sumE ['a']⟩], [(1, 1)], none⟩ 1 1
      ("SUM: b".toList) (by decide) (by decide) (by decide)

end GnucashReport
